import Mathlib

/-!
The C front end of waterz: a shallow embedding of `c_frontend.cpp`.

The front end (`initialize`, `mergeUntil`, `free`) is embedded as pure functions
over an explicit process state (`World`): the static session registry, the
static id counter and a log of what the process printed and which back-end
routine it called, in program order.

The back end (`watershed`, `get_region_graph`, the region merger, the
evaluator) and the header `c_frontend.h` are not part of the translated file.
The front end is therefore parameterised by a `Backend` record; a second part
of the development gives the watershed, the graph builder and the merger that
the design document describes.

Numbers: `float`/`double` values are represented by the rationals they denote
(no rounding, no NaN, no infinities); `size_t` is a natural number and the one
unsigned subtraction of the file is taken modulo `2^64`.
-/

set_option autoImplicit false

namespace Waterz

/-! ## Data model -/

abbrev AffValue := ℚ
abbrev SegID := Nat
abbrev GtID := Nat

/-- Width of `size_t`. -/
def SIZE_BITS : Nat := 64

/-- Subtraction of `size_t` values (wraps around). -/
def sizeSub (a b : Nat) : Nat := (a + 2 ^ SIZE_BITS - b % 2 ^ SIZE_BITS) % 2 ^ SIZE_BITS

/-- Product of three `size_t` values (wraps around), line 27. -/
def sizeMul3 (a b c : Nat) : Nat := (a * b * c) % 2 ^ SIZE_BITS

/-- A `volume_ref` / `volume_const_ref`: the extents and the contents of the caller's
buffer it wraps (no copy is made, so the contents are those of the buffer). -/
structure Volume (α : Type) where
  width : Nat
  height : Nat
  depth : Nat
  data : List α
deriving DecidableEq, Repr

/-- An `affinity_graph_ref`: extents `[3][width][height][depth]` over the caller's buffer. -/
structure AffinityGraph where
  width : Nat
  height : Nat
  depth : Nat
  data : List AffValue
deriving DecidableEq, Repr

/-- The `metrics` member of `WaterzState`: four doubles. -/
structure Metrics where
  rand_split : ℚ
  rand_merge : ℚ
  voi_split : ℚ
  voi_merge : ℚ
deriving DecidableEq, Repr

/-- The state record handed back to the caller: the session id and the metrics. -/
structure WaterzState where
  context : Int
  metrics : Metrics
deriving DecidableEq, Repr

/-- Error kinds of the design document (section 7). -/
inductive ErrorKind where
  | InvalidDimensions
  | InvalidThresholds
  | UnknownSession
  | ShapeMismatch
  | OutOfMemory
deriving DecidableEq, Repr

/-- Modelled from the spec: the type `RegionGraphType` is declared in the missing
`backend/region_graph.hpp`. Section 3: nodes are region ids, edges are unordered
pairs kept as `(u, v)`. -/
structure RegionGraph where
  numNodes : Nat
  edges : List (Nat × Nat)
deriving DecidableEq, Repr

/-- Modelled from the spec: `RegionGraphType::EdgeMap<float>`, one statistic per edge
of the graph, in the order of the edge list. -/
abbrev EdgeMap := List ℚ

/-- Modelled from the spec: `RegionGraphType::NodeMap<size_t>`, one size per node. -/
abbrev NodeMap := List Nat

/-- Modelled from the spec: the state owned by `RegionMergingType` (missing header):
section 4.5, a union-find over region ids and a max-heap of `(score, edge)` entries.
The union-find is kept as the list of current representatives, the heap as the list
of its entries in insertion order; `queued` tells whether the edges of the graph
were already inserted (the scoring function only arrives with the first merge call). -/
structure RegionMerging where
  rep : List Nat
  heap : List (ℚ × Nat × Nat)
  queued : Bool
deriving DecidableEq, Repr

/-- The objects a merge call works on: the merger holds references to the graph, and the
scoring function holds references to the edge statistics and the region sizes. -/
structure MergeObjects where
  regionGraph : RegionGraph
  edgeAffinities : EdgeMap
  regionSizes : NodeMap
  regionMerging : RegionMerging
deriving DecidableEq, Repr

/-- The members of `WaterzContext` that `c_frontend.cpp` assigns and reads. The scoring
function is the pair of references `(*edgeAffinities, *regionSizes)` and has no state
of its own. -/
structure WaterzContext where
  id : Int
  regionGraph : RegionGraph
  edgeAffinities : EdgeMap
  regionSizes : NodeMap
  regionMerging : RegionMerging
  segmentation : Volume SegID
  groundtruth : Option (Volume GtID)
deriving DecidableEq, Repr

/-- What the process does that is visible from outside the data: lines written to
`std::cout` and calls into the back end, in program order. -/
inductive Event where
  | cout (msg : String)
  | coutNodes (before : String) (numNodes : Nat) (after : String)
  | coutThreshold (msg : String) (threshold : ℚ)
  | callWatershed (low high : AffValue)
  | newRegionGraph (numNodes : Nat)
  | newNodeMap (counts : List Nat)
  | callGetRegionGraph (maxId : Nat)
  | callMergeUntil (threshold : ℚ)
  | callExtractSegmentation
  | callCompareVolumes (first : Volume GtID) (second : Volume SegID)
deriving DecidableEq, Repr

/-- The process-wide state: `WaterzContext::_contexts`, `WaterzContext::_nextId`
(lines 13-14) and the log of events. -/
structure World where
  contexts : List (Int × WaterzContext)
  nextId : Int
  log : List Event
deriving DecidableEq, Repr

/-- The routines of the back end that the front end calls. A failing watershed is an
error value; the front end has no handler, so it leaves `initialize` at once. -/
structure Backend where
  watershed : AffinityGraph → AffValue → AffValue → Volume SegID →
    Except ErrorKind (Volume SegID × List Nat)
  get_region_graph : AffinityGraph → Volume SegID → Nat → RegionGraph → EdgeMap →
    RegionGraph × EdgeMap
  newRegionMerging : RegionGraph → RegionMerging
  mergeUntil : MergeObjects → ℚ → MergeObjects
  extractSegmentation : RegionMerging → Volume SegID → Volume SegID
  compare_volumes : Volume GtID → Volume SegID → ℚ × ℚ × ℚ × ℚ

/-! ## Session registry -/

/-- Modelled from the spec: `WaterzContext::get` is declared in the missing
`c_frontend.h`; section 9: sessions are keyed by integer id in a process-wide map. -/
def WaterzContext.get (w : World) (id : Int) : Option WaterzContext :=
  (w.contexts.find? (fun p => p.1 == id)).map Prod.snd

/-- Modelled from the spec: `WaterzContext::createNew` (missing header): a fresh record
under the next id of the static counter. -/
def WaterzContext.createNew (w : World) (c : WaterzContext) : World × WaterzContext :=
  let c1 := { c with id := w.nextId }
  ({ w with contexts := w.contexts ++ [(w.nextId, c1)], nextId := w.nextId + 1 }, c1)

/-- Writing through the `WaterzContext*` that `get` or `createNew` returned for `id`: the
registry entry found under that id is replaced. -/
def storeEntry : List (Int × WaterzContext) → Int → WaterzContext → List (Int × WaterzContext)
  | [], _, _ => []
  | p :: ps, id, c => if p.1 == id then (p.1, c) :: ps else p :: storeEntry ps id c

def WaterzContext.store (w : World) (id : Int) (c : WaterzContext) : World :=
  { w with contexts := storeEntry w.contexts id c }

/-- Modelled from the spec: `WaterzContext::free` (missing header): the session of that
id leaves the registry. -/
def WaterzContext.free (w : World) (id : Int) : World :=
  { w with contexts := w.contexts.filter (fun p => !(p.1 == id)) }

def World.emit (w : World) (es : List Event) : World :=
  { w with log := w.log ++ es }

/-! ## `initialize` (lines 16-111) -/

/-- The arguments of `initialize`. `uninit` is whatever the automatic variable
`initial_state` holds in its `metrics` member, which `initialize` never assigns. -/
structure InitArgs where
  width : Nat
  height : Nat
  depth : Nat
  affinity_data : List AffValue
  segmentation_data : List SegID
  ground_truth_data : Option (List GtID)
  affThresholdLow : AffValue
  affThresholdHigh : AffValue
  uninit : Metrics

/-- The function `initialize` of `c_frontend.cpp`: the process state in which the call
ends, and either the returned state record or the error of the watershed that ended
the call. Line 43 has printed and line 46 has called the watershed in both cases; a
failing watershed leaves the registry and the id counter untouched, because nothing
after line 46 runs. -/
def initRun (B : Backend) (w : World) (a : InitArgs) : World × Except ErrorKind WaterzState :=
  let _num_voxels := sizeMul3 a.width a.height a.depth
  let affinities : AffinityGraph := ⟨a.width, a.height, a.depth, a.affinity_data⟩
  let segmentation0 : Volume SegID := ⟨a.width, a.height, a.depth, a.segmentation_data⟩
  let w := w.emit [Event.cout "performing initial watershed segmentation...",
    Event.callWatershed a.affThresholdLow a.affThresholdHigh]
  match B.watershed affinities a.affThresholdLow a.affThresholdHigh segmentation0 with
  | Except.error e => (w, Except.error e)
  | Except.ok (segmentation, counts) =>
    let numNodes := counts.length
    let w := w.emit [Event.coutNodes "creating region graph for " numNodes " nodes",
      Event.newRegionGraph numNodes]
    let regionGraph0 : RegionGraph := ⟨numNodes, []⟩
    let w := w.emit [Event.cout "creating edge affinity map"]
    let edgeAffinities0 : EdgeMap := []
    let w := w.emit [Event.cout "creating region size map", Event.newNodeMap counts]
    let regionSizes : NodeMap := counts
    let w := w.emit [Event.cout "extracting region graph...",
      Event.callGetRegionGraph (sizeSub numNodes 1)]
    let g := B.get_region_graph affinities segmentation (sizeSub numNodes 1)
      regionGraph0 edgeAffinities0
    let regionMerging := B.newRegionMerging g.1
    let fresh : WaterzContext :=
      { id := 0, regionGraph := g.1, edgeAffinities := g.2, regionSizes := regionSizes,
        regionMerging := regionMerging, segmentation := segmentation, groundtruth := none }
    let (w, context) := WaterzContext.createNew w fresh
    let initial_state : WaterzState := ⟨context.id, a.uninit⟩
    match a.ground_truth_data with
    | some gt =>
      let groundtruth : Volume GtID := ⟨a.width, a.height, a.depth, gt⟩
      (WaterzContext.store w context.id { context with groundtruth := some groundtruth },
        Except.ok initial_state)
    | none => (w, Except.ok initial_state)

/-- The outcome of `initialize` for its caller: the new process state with the returned
state record, or the error that ended the call. -/
def initSession (B : Backend) (w : World) (a : InitArgs) : Except ErrorKind (World × WaterzState) :=
  match initRun B w a with
  | (w1, Except.ok st) => Except.ok (w1, st)
  | (_, Except.error e) => Except.error e

/-! ## `mergeUntil` (lines 113-144) -/

def WaterzContext.objects (c : WaterzContext) : MergeObjects :=
  ⟨c.regionGraph, c.edgeAffinities, c.regionSizes, c.regionMerging⟩

def WaterzContext.withObjects (c : WaterzContext) (o : MergeObjects) : WaterzContext :=
  { c with regionGraph := o.regionGraph, edgeAffinities := o.edgeAffinities,
           regionSizes := o.regionSizes, regionMerging := o.regionMerging }

/-- The block guarded by `threshold > 0` (lines 120-131). -/
def mergeBlock (B : Backend) (context : WaterzContext) (threshold : ℚ) :
    WaterzContext × List Event :=
  if threshold > 0 then
    let o := B.mergeUntil context.objects threshold
    let c1 := context.withObjects o
    ({ c1 with segmentation := B.extractSegmentation c1.regionMerging c1.segmentation },
      [Event.coutThreshold "merging until threshold " threshold,
       Event.callMergeUntil threshold,
       Event.cout "extracting segmentation",
       Event.callExtractSegmentation])
  else (context, [])

/-- The block guarded by `context->groundtruth` (lines 133-143). -/
def evaluateBlock (B : Backend) (context : WaterzContext) (state : WaterzState) :
    WaterzState × List Event :=
  match context.groundtruth with
  | some groundtruth =>
    let m := B.compare_volumes groundtruth context.segmentation
    ({ state with metrics :=
        { rand_split := m.1, rand_merge := m.2.1,
          voi_split := m.2.2.1, voi_merge := m.2.2.2 } },
      [Event.cout "evaluating current segmentation against ground-truth",
       Event.callCompareVolumes groundtruth context.segmentation])
  | none => (state, [])

/-- The function `mergeUntil` of `c_frontend.cpp`. The result is `none` when the id
names no registered session: the code then dereferences the null pointer that
`WaterzContext::get` returned. -/
def mergeUntil (B : Backend) (w : World) (state : WaterzState) (threshold : ℚ) :
    Option (World × WaterzState) :=
  match WaterzContext.get w state.context with
  | none => none
  | some context =>
    let r := mergeBlock B context threshold
    let s := evaluateBlock B r.1 state
    some ((WaterzContext.store w state.context r.1).emit (r.2 ++ s.2), s.1)

/-- The function `free` of `c_frontend.cpp` (lines 146-150). -/
def free (w : World) (state : WaterzState) : World :=
  WaterzContext.free w state.context

/-! ## The back end of the design document

Everything in this part is modelled from the design document, because the headers
`backend/MergeFunctions.hpp`, `backend/basic_watershed.hpp` and
`backend/region_graph.hpp` are not part of the translated file. The evaluator of
`evaluate.hpp` is not modelled: it stays a parameter of the back end. -/

/-- Modelled from the spec: linear index of a voxel, section 3 (row-major, Z fastest). -/
def voxelIndex (H D x y z : Nat) : Nat := (x * H + y) * D + z

/-- Modelled from the spec: `aff[a, x, y, z]`, section 6 (axis-major, then X, Y, Z). -/
def affAt (g : AffinityGraph) (a x y z : Nat) : AffValue :=
  g.data.getD (((a * g.width + x) * g.height + y) * g.depth + z) 0

/-- Modelled from the spec: the coordinates of the voxel with linear index `i`. -/
def coords (H D i : Nat) : Nat × Nat × Nat := (i / (H * D), (i / D) % H, i % D)

/-- Modelled from the spec: the neighbour of a voxel in direction `k`, in the fixed
order `-x, +x, -y, +y, -z, +z` of section 4.2; `none` outside the volume. -/
def neighbour (W H D : Nat) (p : Nat × Nat × Nat) (k : Nat) : Option (Nat × Nat × Nat) :=
  match k with
  | 0 => if 0 < p.1 then some (p.1 - 1, p.2.1, p.2.2) else none
  | 1 => if p.1 + 1 < W then some (p.1 + 1, p.2.1, p.2.2) else none
  | 2 => if 0 < p.2.1 then some (p.1, p.2.1 - 1, p.2.2) else none
  | 3 => if p.2.1 + 1 < H then some (p.1, p.2.1 + 1, p.2.2) else none
  | 4 => if 0 < p.2.2 then some (p.1, p.2.1, p.2.2 - 1) else none
  | 5 => if p.2.2 + 1 < D then some (p.1, p.2.1, p.2.2 + 1) else none
  | _ => none

/-- Modelled from the spec: the affinity of a voxel towards direction `k`; positive
directions read the voxel's own entry, negative ones the neighbour's entry, and
a direction that leaves the volume has affinity 0 (section 3). -/
def dirAff (g : AffinityGraph) (p : Nat × Nat × Nat) (k : Nat) : AffValue :=
  match neighbour g.width g.height g.depth p k with
  | none => 0
  | some n => if k % 2 = 1 then affAt g (k / 2) p.1 p.2.1 p.2.2
              else affAt g (k / 2) n.1 n.2.1 n.2.2

/-- Modelled from the spec: step 1 of section 4.2, the steepest outgoing direction:
affinity strictly above `aff_low` and maximal, the first such in the fixed order. -/
def steepest (g : AffinityGraph) (low : AffValue) (p : Nat × Nat × Nat) : Option Nat :=
  (List.range 6).foldl (fun best k =>
    if dirAff g p k > low then
      match best with
      | none => some k
      | some b => if dirAff g p k > dirAff g p b then some k else best
    else best) none

/-- Modelled from the spec: the voxel pairs that section 4.2 connects: the steepest
arrow of each voxel (step 1) and the forced edges of affinity at least `aff_high`
(step 2), as pairs of linear indices. -/
def watershedLinks (g : AffinityGraph) (low high : AffValue) : List (Nat × Nat) :=
  (List.range (g.width * g.height * g.depth)).flatMap (fun i =>
    let p := coords g.height g.depth i
    let arrow : List (Nat × Nat) :=
      match steepest g low p with
      | none => []
      | some k =>
        match neighbour g.width g.height g.depth p k with
        | none => []
        | some n => [(i, voxelIndex g.height g.depth n.1 n.2.1 n.2.2)]
    let forced : List (Nat × Nat) :=
      [1, 3, 5].flatMap (fun k =>
        match neighbour g.width g.height g.depth p k with
        | none => []
        | some n =>
          if dirAff g p k ≥ high then [(i, voxelIndex g.height g.depth n.1 n.2.1 n.2.2)]
          else [])
    arrow ++ forced)

/-- Modelled from the spec: step 3 of section 4.2: a voxel is background when it has
no outgoing direction above `aff_low` and no forced edge reaches it. -/
def isBackground (g : AffinityGraph) (low high : AffValue) (i : Nat) : Bool :=
  (steepest g low (coords g.height g.depth i)).isNone &&
  !((watershedLinks g low high).any (fun e => e.1 == i || e.2 == i))

/-- Modelled from the spec: step 4 of section 4.2: the connected components of the
links; every voxel ends up with the smallest linear index of its component. -/
def components (n : Nat) (links : List (Nat × Nat)) : List Nat :=
  links.foldl (fun comp e =>
    let ci := comp.getD e.1 e.1
    let cj := comp.getD e.2 e.2
    comp.map (fun c => if c = max ci cj then min ci cj else c)) (List.range n)

/-- Modelled from the spec: section 4.2. Labels are contiguous ids `1..N` in the order
in which the regions are first met by linear index, background is 0, and `counts`
has the `N + 1` region sizes. `aff_low > aff_high` is the error `InvalidThresholds`. -/
def watershed (g : AffinityGraph) (low high : AffValue) (seg : Volume SegID) :
    Except ErrorKind (Volume SegID × List Nat) :=
  if low > high then Except.error ErrorKind.InvalidThresholds
  else
    let n := g.width * g.height * g.depth
    let comp := components n (watershedLinks g low high)
    let isRoot : Nat → Bool := fun j => !(isBackground g low high j) && comp.getD j j == j
    let labels := (List.range n).map (fun i =>
      if isBackground g low high i then 0
      else ((List.range (comp.getD i i + 1)).filter isRoot).length)
    let N := ((List.range n).filter isRoot).length
    let counts := (List.range (N + 1)).map (fun k => labels.count k)
    Except.ok ({ seg with data := labels }, counts)

/-- Modelled from the spec: section 4.3. One running-maximum update of the edge
`(u, v)` with the affinity `x`; the first update inserts the edge. -/
def updateEdge (r : RegionGraph × EdgeMap) (u v : Nat) (x : AffValue) : RegionGraph × EdgeMap :=
  if r.1.edges.contains (u, v) then
    (r.1, (r.1.edges.zip r.2).map (fun e => if e.1 = (u, v) then max e.2 x else e.2))
  else ({ r.1 with edges := r.1.edges ++ [(u, v)] }, r.2 ++ [x])

/-- Modelled from the spec: section 4.3. Scan every voxel and every positive direction
with a valid neighbour; skip equal labels and background; canonicalise to `u < v`. -/
def get_region_graph (g : AffinityGraph) (seg : Volume SegID) (_maxId : Nat)
    (graph : RegionGraph) (stats : EdgeMap) : RegionGraph × EdgeMap :=
  (List.range (g.width * g.height * g.depth)).foldl (fun r i =>
    let p := coords g.height g.depth i
    [1, 3, 5].foldl (fun r k =>
      match neighbour g.width g.height g.depth p k with
      | none => r
      | some n =>
        let u := seg.data.getD i 0
        let v := seg.data.getD (voxelIndex g.height g.depth n.1 n.2.1 n.2.2) 0
        if u = v ∨ u = 0 ∨ v = 0 then r
        else updateEdge r (min u v) (max u v) (affAt g (k / 2) p.1 p.2.1 p.2.2)) r)
    (graph, stats)

/-! ### Merger (section 4.5) -/

abbrev HeapEntry := ℚ × Nat × Nat

/-- Modelled from the spec: the top of the max-heap: the largest score, and among equal
scores the entry inserted first (section 5, FIFO among equal scores). -/
def heapTop : List HeapEntry → Option HeapEntry
  | [] => none
  | e :: es =>
    match heapTop es with
    | none => some e
    | some b => if b.1 > e.1 then some b else some e

/-- Modelled from the spec: pop the top entry of the heap. -/
def heapPop (h : List HeapEntry) : Option (HeapEntry × List HeapEntry) :=
  (heapTop h).map (fun e => (e, h.erase e))

/-- Modelled from the spec: the reference score of section 4.4 (max-affinity linkage):
`score(edge_stat, size_u, size_v)` is the edge statistic. -/
def score (edge_stat : ℚ) (_size_u _size_v : Nat) : ℚ := edge_stat

/-- Modelled from the spec: the current union-find representative of a region id. -/
def findRep (rep : List Nat) (x : Nat) : Nat := rep.getD x x

/-- Modelled from the spec: constructor of the merger: each region is its own set. -/
def newRegionMerging (g : RegionGraph) : RegionMerging :=
  { rep := List.range g.numNodes, heap := [], queued := false }

/-- Modelled from the spec: "Initialization. Insert every edge into the heap", done when
the scoring function first arrives. -/
def enqueueEdges (o : MergeObjects) : MergeObjects :=
  if o.regionMerging.queued then o
  else
    { o with regionMerging :=
        { o.regionMerging with
          heap := o.regionMerging.heap ++
            (o.regionGraph.edges.zip o.edgeAffinities).map (fun e =>
              (score e.2 (o.regionSizes.getD e.1.1 0) (o.regionSizes.getD e.1.2 0),
                e.1.1, e.1.2)),
          queued := true } }

def incident (e : Nat × Nat) (s : Nat) : Bool := e.1 == s || e.2 == s

def otherEnd (e : Nat × Nat) (s : Nat) : Nat := if e.1 = s then e.2 else e.1

def canon (a b : Nat) : Nat × Nat := (min a b, max a b)

/-- Modelled from the spec: step 3 of the contraction for one edge `e` incident to the
source, and step 4 (the fresh heap entry): drop a self-loop, combine with an existing
edge to the target by the maximum, or rewire. `acc.1` is the graph built so far,
`acc.2` the entries to push. -/
def absorb (source target : Nat) (sizes : NodeMap)
    (acc : List ((Nat × Nat) × ℚ) × List HeapEntry) (e : (Nat × Nat) × ℚ) :
    List ((Nat × Nat) × ℚ) × List HeapEntry :=
  let w := otherEnd e.1 source
  if w = target then acc
  else
    match acc.1.find? (fun x => x.1 == canon target w) with
    | some old =>
      (acc.1.map (fun x => if x.1 = canon target w then (x.1, max x.2 e.2) else x),
       acc.2 ++ [(score (max old.2 e.2) (sizes.getD target 0) (sizes.getD w 0),
          (canon target w).1, (canon target w).2)])
    | none =>
      (acc.1 ++ [(canon target w, e.2)],
       acc.2 ++ [(score e.2 (sizes.getD target 0) (sizes.getD w 0),
          (canon target w).1, (canon target w).2)])

/-- Modelled from the spec: the contraction of section 4.5, steps 1 to 4, once source
and target are chosen: union-find update, size update, edges of the source, fresh
heap entries. -/
def mergeInto (o : MergeObjects) (source target : Nat) : MergeObjects :=
  let sizes := o.regionSizes.set target
    (o.regionSizes.getD target 0 + o.regionSizes.getD source 0)
  let rag := o.regionGraph.edges.zip o.edgeAffinities
  let r := (rag.filter (fun e => incident e.1 source)).foldl (absorb source target sizes)
    (rag.filter (fun e => !(incident e.1 source)), [])
  { regionGraph := { o.regionGraph with edges := r.1.map Prod.fst },
    edgeAffinities := r.1.map Prod.snd,
    regionSizes := sizes,
    regionMerging :=
      { o.regionMerging with
        rep := o.regionMerging.rep.map (fun x => if x = source then target else x),
        heap := o.regionMerging.heap ++ r.2 } }

/-- Modelled from the spec: the contraction of the two representatives `u` and `v`:
the smaller side is the source, the larger the target; on equal sizes `u` is the source. -/
def contract (o : MergeObjects) (u v : Nat) : MergeObjects :=
  if o.regionSizes.getD u 0 ≤ o.regionSizes.getD v 0 then mergeInto o u v
  else mergeInto o v u

def MergeObjects.setHeap (o : MergeObjects) (h : List HeapEntry) : MergeObjects :=
  { o with regionMerging := { o.regionMerging with heap := h } }

/-- Modelled from the spec: the loop of `merge_until(t)`: pop the top `(s, e)`; if
`s < t` push back nothing and stop; if the representatives of the end points are
already unified, discard the entry and continue; otherwise contract. The first
argument bounds the number of pops. -/
def mergeLoop : Nat → ℚ → MergeObjects → MergeObjects
  | 0, _, o => o
  | fuel + 1, t, o =>
    match heapPop o.regionMerging.heap with
    | none => o
    | some (e, rest) =>
      if e.1 < t then o.setHeap rest
      else if findRep o.regionMerging.rep e.2.1 = findRep o.regionMerging.rep e.2.2 then
        mergeLoop fuel t (o.setHeap rest)
      else
        mergeLoop fuel t (contract (o.setHeap rest)
          (findRep o.regionMerging.rep e.2.1) (findRep o.regionMerging.rep e.2.2))

/-- A number of pops that the loop cannot exceed on well-formed objects. -/
def popBound (o : MergeObjects) : Nat :=
  o.regionMerging.heap.length + o.regionMerging.rep.length * o.regionGraph.edges.length + 1

/-- Modelled from the spec: `RegionMergingType::mergeUntil(scoringFunction, threshold)`. -/
def mergerMergeUntil (o : MergeObjects) (t : ℚ) : MergeObjects :=
  mergeLoop (popBound (enqueueEdges o)) t (enqueueEdges o)

/-- Modelled from the spec: `extract_segmentation`: every voxel label becomes the current
representative of its label; background (0) is preserved. -/
def extractSegmentation (m : RegionMerging) (seg : Volume SegID) : Volume SegID :=
  { seg with data := seg.data.map (fun l => if l = 0 then 0 else findRep m.rep l) }

/-- The type of `compare_volumes`: two label volumes to the tuple of four scores. -/
abbrev Evaluator := Volume GtID → Volume SegID → ℚ × ℚ × ℚ × ℚ

/-- The back end of the design document. The evaluator of `evaluate.hpp` stays a
parameter: the front end only stores the tuple it returns. -/
def specBackend (evaluate : Evaluator) : Backend :=
  { watershed := watershed,
    get_region_graph := get_region_graph,
    newRegionMerging := newRegionMerging,
    mergeUntil := mergerMergeUntil,
    extractSegmentation := extractSegmentation,
    compare_volumes := evaluate }

/-! ## Scenarios -/

/-- The empty process state at program start (`_nextId = 0`, no session). -/
def World.start : World := ⟨[], 0, []⟩

/-- Scenario 2 of the design document: `W=4, H=1, D=1`, `+x` affinities `1.0, 0.0, 1.0`,
`aff_low = 0.1`, `aff_high = 0.9`; the label buffer starts zeroed. -/
def scenario2 (gt : Option (List GtID)) : InitArgs :=
  { width := 4, height := 1, depth := 1,
    affinity_data := [1, 0, 1, 0, 0, 0, 0, 0, 0, 0, 0, 0],
    segmentation_data := [0, 0, 0, 0],
    ground_truth_data := gt,
    affThresholdLow := 1 / 10, affThresholdHigh := 9 / 10,
    uninit := ⟨7, 7, 7, 7⟩ }

/-- A stand-in for the absent evaluator in closed examples: in each of the four fields,
the number of voxels that carry a non-zero label in both volumes. -/
def evaluateTally : Evaluator := fun A B =>
  let n : ℚ := ((A.data.zip B.data).filter (fun p => p.1 != 0 && p.2 != 0)).length
  (n, n, n, n)

/-- A sequence of `mergeUntil` calls on one session, the state record being passed on. -/
def runCalls (B : Backend) (w : World) (state : WaterzState) :
    List ℚ → Option (World × WaterzState)
  | [] => some (w, state)
  | t :: ts =>
    match mergeUntil B w state t with
    | none => none
    | some r => runCalls B r.1 r.2 ts

/-- All registered ids are below the counter. -/
def World.Fresh (w : World) : Prop := ∀ p ∈ w.contexts, p.1 < w.nextId

deriving instance DecidableEq for Except

/-- The session that `initialize` creates in scenario 2, from the empty process state. -/
def session2 (gt : Option (List GtID)) : World × WaterzState :=
  match initSession (specBackend evaluateTally) World.start (scenario2 gt) with
  | Except.ok r => r
  | Except.error _ => (World.start, ⟨0, ⟨0, 0, 0, 0⟩⟩)

/-- The session record of scenario 2 as `initialize` leaves it. -/
def context2 (gt : Option (List GtID)) : WaterzContext :=
  { id := 0, regionGraph := ⟨3, [(1, 2)]⟩, edgeAffinities := [0], regionSizes := [0, 2, 2],
    regionMerging := ⟨[0, 1, 2], [], false⟩, segmentation := ⟨4, 1, 1, [1, 1, 2, 2]⟩,
    groundtruth := gt.map (fun d => ⟨4, 1, 1, d⟩) }

/-- The four doubles that lines 139-142 store, from the tuple of the evaluator. -/
def metricsOf (m : ℚ × ℚ × ℚ × ℚ) : Metrics :=
  { rand_split := m.1, rand_merge := m.2.1, voi_split := m.2.2.1, voi_merge := m.2.2.2 }

/-- The record that `initialize` fills in (lines 86-92) once the watershed has returned
the labels `seg` and the sizes `counts`. -/
def initContext (B : Backend) (a : InitArgs) (seg : Volume SegID) (counts : List Nat)
    (id : Int) : WaterzContext :=
  let g := B.get_region_graph ⟨a.width, a.height, a.depth, a.affinity_data⟩ seg
    (sizeSub counts.length 1) ⟨counts.length, []⟩ []
  { id := id, regionGraph := g.1, edgeAffinities := g.2, regionSizes := counts,
    regionMerging := B.newRegionMerging g.1, segmentation := seg, groundtruth := none }

/-- The events of a successful `initialize`, in program order. -/
def initEvents (a : InitArgs) (counts : List Nat) : List Event :=
  [Event.cout "performing initial watershed segmentation...",
   Event.callWatershed a.affThresholdLow a.affThresholdHigh,
   Event.coutNodes "creating region graph for " counts.length " nodes",
   Event.newRegionGraph counts.length,
   Event.cout "creating edge affinity map",
   Event.cout "creating region size map",
   Event.newNodeMap counts,
   Event.cout "extracting region graph...",
   Event.callGetRegionGraph (sizeSub counts.length 1)]

/-- The process state right after `WaterzContext::createNew` in `initialize`. -/
def initWorld (B : Backend) (w : World) (a : InitArgs) (seg : Volume SegID)
    (counts : List Nat) : World :=
  { contexts := w.contexts ++ [(w.nextId, initContext B a seg counts w.nextId)],
    nextId := w.nextId + 1,
    log := w.log ++ initEvents a counts }

/-- The session of scenario 2 after a sequence of `mergeUntil` calls. -/
def session2After (gt : Option (List GtID)) (ts : List ℚ) : World × WaterzState :=
  match runCalls (specBackend evaluateTally) (session2 gt).1 (session2 gt).2 ts with
  | some r => r
  | none => (World.start, ⟨0, ⟨0, 0, 0, 0⟩⟩)

/-- A call with `width = 0`: empty buffers, valid thresholds. -/
def scenarioEmpty : InitArgs :=
  { width := 0, height := 1, depth := 1, affinity_data := [], segmentation_data := [],
    ground_truth_data := none, affThresholdLow := 1 / 10, affThresholdHigh := 9 / 10,
    uninit := ⟨7, 7, 7, 7⟩ }

/-- What the design's watershed returns when the thresholds are in order. -/
def watershedResult (g : AffinityGraph) (low high : AffValue) (seg : Volume SegID) :
    Volume SegID × List Nat :=
  match watershed g low high seg with
  | Except.ok r => r
  | Except.error _ => (seg, [])

/-- Well-formed merge objects: representatives, heap entries and graph edges name nodes
of the union-find, and every representative represents itself. -/
def WellFormed (o : MergeObjects) : Prop :=
  (∀ r ∈ o.regionMerging.rep, r < o.regionMerging.rep.length) ∧
  (∀ r ∈ o.regionMerging.rep, findRep o.regionMerging.rep r = r) ∧
  (∀ e ∈ o.regionMerging.heap,
    e.2.1 < o.regionMerging.rep.length ∧ e.2.2 < o.regionMerging.rep.length) ∧
  (∀ e ∈ o.regionGraph.edges,
    e.1 < o.regionMerging.rep.length ∧ e.2 < o.regionMerging.rep.length)

instance (o : MergeObjects) : Decidable (WellFormed o) := by
  unfold WellFormed
  infer_instance

/-- The measure that bounds the pops still to come. -/
def potential (o : MergeObjects) : Nat :=
  o.regionMerging.heap.length + o.regionMerging.rep.toFinset.card * o.regionGraph.edges.length

/-- The labels of session 0 after a sequence of calls, from a given process state. -/
def labelsAfter (w : World) (ts : List ℚ) : Option (List SegID) :=
  match runCalls (specBackend evaluateTally) w ⟨0, ⟨0, 0, 0, 0⟩⟩ ts with
  | some r => (WaterzContext.get r.1 0).map (fun c => c.segmentation.data)
  | none => none

/-! ## Theorems -/

/-! ### Registry -/

theorem find_storeEntry (l : List (Int × WaterzContext)) (id : Int) (c : WaterzContext)
    (h : (l.find? (fun p => p.1 == id)).isSome) :
    (storeEntry l id c).find? (fun p => p.1 == id) = some (id, c) := by
  induction l with
  | nil => simp at h
  | cons p ps ih =>
    by_cases hp : p.1 = id
    · simp [storeEntry, hp]
    · have hb : (p.1 == id) = false := by simpa using hp
      simp only [List.find?_cons, hb] at h
      simp only [storeEntry, hb, Bool.false_eq_true, if_false, List.find?_cons]
      exact ih h

theorem storeEntry_same (l : List (Int × WaterzContext)) (id : Int) (c : WaterzContext)
    (h : l.find? (fun p => p.1 == id) = some (id, c)) : storeEntry l id c = l := by
  induction l with
  | nil => rfl
  | cons p ps ih =>
    by_cases hp : p.1 = id
    · have hb : (p.1 == id) = true := by simpa using hp
      simp only [List.find?_cons, hb] at h
      simp only [storeEntry, hb, if_true]
      have h2 : p = (id, c) := Option.some.inj h
      rw [h2]
    · have hb : (p.1 == id) = false := by simpa using hp
      simp only [List.find?_cons, hb] at h
      simp only [storeEntry, hb, Bool.false_eq_true, if_false]
      rw [ih h]

theorem get_eq_some {w : World} {id : Int} {c : WaterzContext}
    (h : WaterzContext.get w id = some c) :
    w.contexts.find? (fun p => p.1 == id) = some (id, c) := by
  unfold WaterzContext.get at h
  cases hf : w.contexts.find? (fun p => p.1 == id) with
  | none => simp [hf] at h
  | some q =>
    have hq := List.find?_some hf
    simp [hf] at h
    simp at hq
    rw [← h, ← hq]

theorem get_store {w : World} {id : Int} {c0 : WaterzContext} (c : WaterzContext)
    (h : WaterzContext.get w id = some c0) :
    WaterzContext.get (WaterzContext.store w id c) id = some c := by
  have h1 := get_eq_some h
  unfold WaterzContext.get WaterzContext.store
  simp only
  rw [find_storeEntry _ _ _ (by simp [h1])]
  rfl

theorem store_same {w : World} {id : Int} {c : WaterzContext}
    (h : WaterzContext.get w id = some c) : WaterzContext.store w id c = w := by
  unfold WaterzContext.store
  rw [storeEntry_same _ _ _ (get_eq_some h)]

theorem get_emit (w : World) (es : List Event) (id : Int) :
    WaterzContext.get (w.emit es) id = WaterzContext.get w id := rfl

/-! ### The front end, for every back end -/

theorem mergeBlock_groundtruth (B : Backend) (c : WaterzContext) (t : ℚ) :
    (mergeBlock B c t).1.groundtruth = c.groundtruth := by
  unfold mergeBlock
  split <;> rfl

theorem evaluateBlock_context (B : Backend) (c : WaterzContext) (s : WaterzState) :
    (evaluateBlock B c s).1.context = s.context := by
  unfold evaluateBlock
  split <;> rfl

/-- What one call does to a live session. -/
theorem mergeUntil_live (B : Backend) (w : World) (state : WaterzState) (t : ℚ)
    (c : WaterzContext) (hlive : WaterzContext.get w state.context = some c) :
    mergeUntil B w state t =
      some ((WaterzContext.store w state.context (mergeBlock B c t).1).emit
        ((mergeBlock B c t).2 ++ (evaluateBlock B (mergeBlock B c t).1 state).2),
        (evaluateBlock B (mergeBlock B c t).1 state).1) := by
  unfold mergeUntil
  rw [hlive]

theorem runCalls_live (B : Backend) (ts : List ℚ) :
    ∀ (w : World) (state : WaterzState) (c : WaterzContext),
      WaterzContext.get w state.context = some c →
      ∃ w1 s1 c1, runCalls B w state ts = some (w1, s1) ∧ s1.context = state.context ∧
        WaterzContext.get w1 s1.context = some c1 ∧ c1.groundtruth = c.groundtruth := by
  induction ts with
  | nil => intro w state c h; exact ⟨w, state, c, rfl, rfl, h, rfl⟩
  | cons t ts ih =>
    intro w state c h
    have hm := mergeUntil_live B w state t c h
    have hctx := evaluateBlock_context B (mergeBlock B c t).1 state
    have hget : WaterzContext.get
        ((WaterzContext.store w state.context (mergeBlock B c t).1).emit
          ((mergeBlock B c t).2 ++ (evaluateBlock B (mergeBlock B c t).1 state).2))
        (evaluateBlock B (mergeBlock B c t).1 state).1.context = some (mergeBlock B c t).1 := by
      rw [hctx, get_emit]
      exact get_store _ h
    obtain ⟨w1, s1, c1, h1, h2, h3, h4⟩ := ih _ _ _ hget
    refine ⟨w1, s1, c1, ?_, ?_, h3, ?_⟩
    · simp only [runCalls, hm]
      exact h1
    · rw [h2, hctx]
    · rw [h4, mergeBlock_groundtruth]

theorem find_append_fresh (l : List (Int × WaterzContext)) (id : Int) (c : WaterzContext)
    (h : ∀ p ∈ l, p.1 < id) :
    (l ++ [(id, c)]).find? (fun p => p.1 == id) = some (id, c) := by
  induction l with
  | nil => simp
  | cons p ps ih =>
    have hp : p.1 < id := h p (List.mem_cons_self _ _)
    have hb : (p.1 == id) = false := by
      have : p.1 ≠ id := ne_of_lt hp
      simpa using this
    simp only [List.cons_append, List.find?_cons, hb]
    exact ih (fun q hq => h q (List.mem_cons_of_mem _ hq))

/-- The run of `initialize` when the watershed returns. -/
theorem initRun_of_watershed (B : Backend) (w : World) (a : InitArgs)
    (seg : Volume SegID) (counts : List Nat)
    (hws : B.watershed ⟨a.width, a.height, a.depth, a.affinity_data⟩ a.affThresholdLow
      a.affThresholdHigh ⟨a.width, a.height, a.depth, a.segmentation_data⟩
        = Except.ok (seg, counts)) :
    initRun B w a =
      (match a.ground_truth_data with
       | some gt => WaterzContext.store (initWorld B w a seg counts) w.nextId
           { initContext B a seg counts w.nextId with
             groundtruth := some ⟨a.width, a.height, a.depth, gt⟩ }
       | none => initWorld B w a seg counts,
       Except.ok ⟨w.nextId, a.uninit⟩) := by
  unfold initRun
  simp only [hws]
  cases a.ground_truth_data <;>
    simp [WaterzContext.createNew, World.emit, initWorld, initContext, initEvents,
      WaterzContext.store]

/-- The run of `initialize` when the watershed fails: line 43 has printed, line 46 has
called the watershed, nothing else has happened. -/
theorem initRun_of_failure (B : Backend) (w : World) (a : InitArgs) (e : ErrorKind)
    (hws : B.watershed ⟨a.width, a.height, a.depth, a.affinity_data⟩ a.affThresholdLow
      a.affThresholdHigh ⟨a.width, a.height, a.depth, a.segmentation_data⟩
        = Except.error e) :
    initRun B w a =
      (w.emit [Event.cout "performing initial watershed segmentation...",
        Event.callWatershed a.affThresholdLow a.affThresholdHigh], Except.error e) := by
  unfold initRun
  simp only [hws]

theorem initSession_of_failure (B : Backend) (w : World) (a : InitArgs) (e : ErrorKind)
    (hws : B.watershed ⟨a.width, a.height, a.depth, a.affinity_data⟩ a.affThresholdLow
      a.affThresholdHigh ⟨a.width, a.height, a.depth, a.segmentation_data⟩
        = Except.error e) :
    initSession B w a = Except.error e := by
  unfold initSession
  rw [initRun_of_failure B w a e hws]

/-- The result of `initialize` when the watershed returns. -/
theorem initSession_of_watershed (B : Backend) (w : World) (a : InitArgs)
    (seg : Volume SegID) (counts : List Nat)
    (hws : B.watershed ⟨a.width, a.height, a.depth, a.affinity_data⟩ a.affThresholdLow
      a.affThresholdHigh ⟨a.width, a.height, a.depth, a.segmentation_data⟩
        = Except.ok (seg, counts)) :
    initSession B w a = Except.ok
      (match a.ground_truth_data with
       | some gt => WaterzContext.store (initWorld B w a seg counts) w.nextId
           { initContext B a seg counts w.nextId with
             groundtruth := some ⟨a.width, a.height, a.depth, gt⟩ }
       | none => initWorld B w a seg counts,
       ⟨w.nextId, a.uninit⟩) := by
  unfold initSession
  rw [initRun_of_watershed B w a seg counts hws]

theorem get_initWorld (B : Backend) (w : World) (a : InitArgs) (seg : Volume SegID)
    (counts : List Nat) (hfresh : w.Fresh) :
    WaterzContext.get (initWorld B w a seg counts) w.nextId =
      some (initContext B a seg counts w.nextId) := by
  unfold WaterzContext.get initWorld
  simp only
  rw [find_append_fresh _ _ _ hfresh]
  rfl

/-- The session that a successful `initialize` registers: it is found under the returned
id and holds the ground truth exactly when the pointer was not null. -/
theorem initSession_registers (B : Backend) (w w1 : World) (a : InitArgs) (st : WaterzState)
    (hfresh : w.Fresh) (hinit : initSession B w a = Except.ok (w1, st)) :
    ∃ c, WaterzContext.get w1 st.context = some c ∧
      c.groundtruth = a.ground_truth_data.map (fun d => ⟨a.width, a.height, a.depth, d⟩) := by
  cases hws : B.watershed ⟨a.width, a.height, a.depth, a.affinity_data⟩ a.affThresholdLow
      a.affThresholdHigh ⟨a.width, a.height, a.depth, a.segmentation_data⟩ with
  | error e =>
    rw [initSession_of_failure _ w a e hws] at hinit
    cases hinit
  | ok r =>
    obtain ⟨seg, counts⟩ := r
    rw [initSession_of_watershed B w a seg counts hws] at hinit
    injection hinit with hinit
    injection hinit with hw hs
    subst hs
    cases hgt : a.ground_truth_data with
    | none =>
      rw [hgt] at hw
      subst hw
      exact ⟨_, get_initWorld B w a seg counts hfresh, rfl⟩
    | some gt =>
      rw [hgt] at hw
      subst hw
      exact ⟨_, get_store _ (get_initWorld B w a seg counts hfresh), rfl⟩

theorem sizeSub_succ_one (N : Nat) (h : N + 1 < 2 ^ 64) : sizeSub (N + 1) 1 = N := by
  unfold sizeSub SIZE_BITS
  have h1 : (1 : Nat) % 2 ^ 64 = 1 := by norm_num
  rw [h1]
  have h2 : N + 1 + 2 ^ 64 - 1 = N + 2 ^ 64 := by omega
  rw [h2, Nat.add_mod_right]
  exact Nat.mod_eq_of_lt (by omega)

theorem sizeSub_one_wraps (n : Nat) (h : n < 2 ^ 64) (hw : sizeSub n 1 = 2 ^ 64 - 1) :
    n = 0 := by
  cases n with
  | zero => rfl
  | succ m =>
    rw [sizeSub_succ_one m h] at hw
    omega

/-! ### C1 -/

/-- C1: for a session made by `initialize` and carried through any sequence of earlier
`mergeUntil` calls, the next `mergeUntil` (any threshold) writes the four metric fields
from the evaluator's result when `initialize` got a non-null ground truth, and leaves
`state.metrics` as it was, without calling the evaluator, when the pointer was null. -/
theorem mergeUntil_writes_metrics_iff_groundtruth (B : Backend) (w w1 w2 : World)
    (a : InitArgs) (st st2 : WaterzState) (ts : List ℚ) (t : ℚ)
    (hfresh : w.Fresh) (hinit : initSession B w a = Except.ok (w1, st))
    (hcalls : runCalls B w1 st ts = some (w2, st2)) :
    ∃ c w3 st3 evs, WaterzContext.get w2 st2.context = some c ∧
      mergeUntil B w2 st2 t = some (w3, st3) ∧ w3.log = w2.log ++ evs ∧
      (a.ground_truth_data = none →
        st3.metrics = st2.metrics ∧ ∀ g s, Event.callCompareVolumes g s ∉ evs) ∧
      (∀ gt, a.ground_truth_data = some gt →
        st3.metrics = metricsOf (B.compare_volumes ⟨a.width, a.height, a.depth, gt⟩
          (mergeBlock B c t).1.segmentation) ∧
        Event.callCompareVolumes ⟨a.width, a.height, a.depth, gt⟩
          (mergeBlock B c t).1.segmentation ∈ evs) := by
  obtain ⟨c0, hc0, hg0⟩ := initSession_registers B w w1 a st hfresh hinit
  obtain ⟨w2', s2', c, hr, _, hget, hg⟩ := runCalls_live B ts w1 st c0 hc0
  rw [hcalls] at hr
  injection hr with hr
  injection hr with hw hs
  subst hw; subst hs
  have hgt : (mergeBlock B c t).1.groundtruth =
      a.ground_truth_data.map (fun d => ⟨a.width, a.height, a.depth, d⟩) := by
    rw [mergeBlock_groundtruth, hg, hg0]
  refine ⟨c, _, _, _, hget, mergeUntil_live B w2 st2 t c hget, rfl, ?_, ?_⟩
  · intro hnone
    rw [hnone] at hgt
    unfold evaluateBlock
    simp only [hgt, Option.map_none']
    refine ⟨trivial, ?_⟩
    intro g s hmem
    unfold mergeBlock at hmem
    by_cases ht : t > 0 <;> simp [ht] at hmem
  · intro gt hsome
    rw [hsome] at hgt
    unfold evaluateBlock
    simp only [hgt, Option.map_some']
    refine ⟨rfl, ?_⟩
    simp

theorem mergeUntil_writes_metrics_iff_groundtruth_witness :
    World.Fresh World.start ∧
    initSession (specBackend evaluateTally) World.start (scenario2 (some [1, 1, 2, 2]))
      = Except.ok (session2 (some [1, 1, 2, 2])) ∧
    ∃ c w3 st3 evs,
      WaterzContext.get (session2After (some [1, 1, 2, 2]) [1 / 2]).1
        (session2After (some [1, 1, 2, 2]) [1 / 2]).2.context = some c ∧
      mergeUntil (specBackend evaluateTally) (session2After (some [1, 1, 2, 2]) [1 / 2]).1
        (session2After (some [1, 1, 2, 2]) [1 / 2]).2 0 = some (w3, st3) ∧
      w3.log = (session2After (some [1, 1, 2, 2]) [1 / 2]).1.log ++ evs ∧
      ((scenario2 (some [1, 1, 2, 2])).ground_truth_data = none →
        st3.metrics = (session2After (some [1, 1, 2, 2]) [1 / 2]).2.metrics ∧
          ∀ g s, Event.callCompareVolumes g s ∉ evs) ∧
      (∀ gt, (scenario2 (some [1, 1, 2, 2])).ground_truth_data = some gt →
        st3.metrics = metricsOf ((specBackend evaluateTally).compare_volumes ⟨4, 1, 1, gt⟩
          (mergeBlock (specBackend evaluateTally) c 0).1.segmentation) ∧
        Event.callCompareVolumes ⟨4, 1, 1, gt⟩
          (mergeBlock (specBackend evaluateTally) c 0).1.segmentation ∈ evs) :=
  ⟨fun _ h => absurd h (List.not_mem_nil _), by decide!,
   mergeUntil_writes_metrics_iff_groundtruth (specBackend evaluateTally) World.start
     (session2 (some [1, 1, 2, 2])).1 (session2After (some [1, 1, 2, 2]) [1 / 2]).1
     (scenario2 (some [1, 1, 2, 2])) (session2 (some [1, 1, 2, 2])).2
     (session2After (some [1, 1, 2, 2]) [1 / 2]).2 [1 / 2] 0
     (fun _ h => absurd h (List.not_mem_nil _)) (by decide!) (by decide!)⟩

/-! ### C2 -/

/-- C2: on a live session, `mergeUntil` with threshold 0 succeeds and leaves the registry,
hence the session record (region graph, edge statistics, region sizes, merging state,
label volume), equal to what it was; the events of the call contain neither a call of the
merger nor a call of `extractSegmentation`. -/
theorem mergeUntil_zero_is_noop (B : Backend) (w : World) (state : WaterzState)
    (c : WaterzContext) (hlive : WaterzContext.get w state.context = some c) :
    ∃ w1 s1 evs, mergeUntil B w state 0 = some (w1, s1) ∧
      w1.contexts = w.contexts ∧ w1.nextId = w.nextId ∧
      WaterzContext.get w1 state.context = some c ∧
      w1.log = w.log ++ evs ∧
      Event.callExtractSegmentation ∉ evs ∧ ∀ t, Event.callMergeUntil t ∉ evs := by
  have hb : mergeBlock B c 0 = (c, []) := by simp [mergeBlock]
  have hm := mergeUntil_live B w state 0 c hlive
  rw [hb] at hm
  simp only [store_same hlive, List.nil_append] at hm
  refine ⟨_, _, _, hm, rfl, rfl, ?_, rfl, ?_, ?_⟩
  · rw [get_emit]; exact hlive
  · unfold evaluateBlock
    cases c.groundtruth <;> simp
  · intro t
    unfold evaluateBlock
    cases c.groundtruth <;> simp

theorem mergeUntil_zero_is_noop_witness :
    WaterzContext.get (session2After none [1 / 2]).1 (session2After none [1 / 2]).2.context
      = some { context2 none with regionMerging := ⟨[0, 1, 2], [], true⟩ } ∧
    ∃ w1 s1 evs,
      mergeUntil (specBackend evaluateTally) (session2After none [1 / 2]).1
        (session2After none [1 / 2]).2 0 = some (w1, s1) ∧
      w1.contexts = (session2After none [1 / 2]).1.contexts ∧
      w1.nextId = (session2After none [1 / 2]).1.nextId ∧
      WaterzContext.get w1 (session2After none [1 / 2]).2.context
        = some { context2 none with regionMerging := ⟨[0, 1, 2], [], true⟩ } ∧
      w1.log = (session2After none [1 / 2]).1.log ++ evs ∧
      Event.callExtractSegmentation ∉ evs ∧ ∀ t, Event.callMergeUntil t ∉ evs :=
  ⟨by decide!, mergeUntil_zero_is_noop (specBackend evaluateTally) _ _ _ (by decide!)⟩

/-! ### C9 -/

/-- C9: on a session with ground truth, the metrics that `mergeUntil t` stores are the
evaluator's result for (ground truth, label volume at the end of the call), field by
field in the order `rand_split, rand_merge, voi_split, voi_merge`. For `t > 0` that label
volume is the one `extractSegmentation` wrote after the merge, and the call order is
merge, extract, evaluate; for `t ≤ 0` it is the unchanged label volume and only the
evaluator is called. -/
theorem mergeUntil_metrics_of_final_labels (B : Backend) (w : World) (state : WaterzState)
    (t : ℚ) (c : WaterzContext) (gt : Volume GtID)
    (hlive : WaterzContext.get w state.context = some c) (hgt : c.groundtruth = some gt) :
    ∃ w1 s1 c1, mergeUntil B w state t = some (w1, s1) ∧
      WaterzContext.get w1 state.context = some c1 ∧
      s1.metrics.rand_split = (B.compare_volumes gt c1.segmentation).1 ∧
      s1.metrics.rand_merge = (B.compare_volumes gt c1.segmentation).2.1 ∧
      s1.metrics.voi_split = (B.compare_volumes gt c1.segmentation).2.2.1 ∧
      s1.metrics.voi_merge = (B.compare_volumes gt c1.segmentation).2.2.2 ∧
      (0 < t →
        c1.segmentation = B.extractSegmentation (B.mergeUntil c.objects t).regionMerging
          c.segmentation ∧
        w1.log = w.log ++
          [Event.coutThreshold "merging until threshold " t,
           Event.callMergeUntil t,
           Event.cout "extracting segmentation",
           Event.callExtractSegmentation,
           Event.cout "evaluating current segmentation against ground-truth",
           Event.callCompareVolumes gt c1.segmentation]) ∧
      (t ≤ 0 →
        c1.segmentation = c.segmentation ∧
        w1.log = w.log ++
          [Event.cout "evaluating current segmentation against ground-truth",
           Event.callCompareVolumes gt c.segmentation]) := by
  have hm := mergeUntil_live B w state t c hlive
  have hg : (mergeBlock B c t).1.groundtruth = some gt := by
    rw [mergeBlock_groundtruth, hgt]
  have he : evaluateBlock B (mergeBlock B c t).1 state =
      ({ state with metrics := metricsOf (B.compare_volumes gt (mergeBlock B c t).1.segmentation) },
       [Event.cout "evaluating current segmentation against ground-truth",
        Event.callCompareVolumes gt (mergeBlock B c t).1.segmentation]) := by
    unfold evaluateBlock
    rw [hg]
    rfl
  rw [he] at hm
  refine ⟨_, _, (mergeBlock B c t).1, hm, ?_, rfl, rfl, rfl, rfl, ?_, ?_⟩
  · rw [get_emit]; exact get_store _ hlive
  · intro ht
    have hb : mergeBlock B c t =
        ({ c.withObjects (B.mergeUntil c.objects t) with
            segmentation := B.extractSegmentation (B.mergeUntil c.objects t).regionMerging
              c.segmentation },
         [Event.coutThreshold "merging until threshold " t,
          Event.callMergeUntil t,
          Event.cout "extracting segmentation",
          Event.callExtractSegmentation]) := by
      unfold mergeBlock
      rw [if_pos ht]
      rfl
    rw [hb]
    exact ⟨rfl, rfl⟩
  · intro ht
    have hb : mergeBlock B c t = (c, []) := by
      unfold mergeBlock
      rw [if_neg (not_lt.mpr ht)]
    rw [hb]
    exact ⟨rfl, rfl⟩

theorem mergeUntil_metrics_of_final_labels_witness :
    WaterzContext.get (session2 (some [1, 1, 2, 2])).1 (session2 (some [1, 1, 2, 2])).2.context
      = some (context2 (some [1, 1, 2, 2])) ∧
    (context2 (some [1, 1, 2, 2])).groundtruth = some ⟨4, 1, 1, [1, 1, 2, 2]⟩ ∧
    ∃ w1 s1 c1,
      mergeUntil (specBackend evaluateTally) (session2 (some [1, 1, 2, 2])).1
        (session2 (some [1, 1, 2, 2])).2 (1 / 2) = some (w1, s1) ∧
      WaterzContext.get w1 (session2 (some [1, 1, 2, 2])).2.context = some c1 ∧
      s1.metrics.rand_split =
        ((specBackend evaluateTally).compare_volumes ⟨4, 1, 1, [1, 1, 2, 2]⟩ c1.segmentation).1 ∧
      s1.metrics.rand_merge =
        ((specBackend evaluateTally).compare_volumes ⟨4, 1, 1, [1, 1, 2, 2]⟩ c1.segmentation).2.1 ∧
      s1.metrics.voi_split =
        ((specBackend evaluateTally).compare_volumes ⟨4, 1, 1, [1, 1, 2, 2]⟩ c1.segmentation).2.2.1 ∧
      s1.metrics.voi_merge =
        ((specBackend evaluateTally).compare_volumes ⟨4, 1, 1, [1, 1, 2, 2]⟩ c1.segmentation).2.2.2 ∧
      (0 < (1 / 2 : ℚ) →
        c1.segmentation = (specBackend evaluateTally).extractSegmentation
          ((specBackend evaluateTally).mergeUntil (context2 (some [1, 1, 2, 2])).objects
            (1 / 2)).regionMerging (context2 (some [1, 1, 2, 2])).segmentation ∧
        w1.log = (session2 (some [1, 1, 2, 2])).1.log ++
          [Event.coutThreshold "merging until threshold " (1 / 2),
           Event.callMergeUntil (1 / 2),
           Event.cout "extracting segmentation",
           Event.callExtractSegmentation,
           Event.cout "evaluating current segmentation against ground-truth",
           Event.callCompareVolumes ⟨4, 1, 1, [1, 1, 2, 2]⟩ c1.segmentation]) ∧
      ((1 / 2 : ℚ) ≤ 0 →
        c1.segmentation = (context2 (some [1, 1, 2, 2])).segmentation ∧
        w1.log = (session2 (some [1, 1, 2, 2])).1.log ++
          [Event.cout "evaluating current segmentation against ground-truth",
           Event.callCompareVolumes ⟨4, 1, 1, [1, 1, 2, 2]⟩
             (context2 (some [1, 1, 2, 2])).segmentation]) :=
  ⟨by decide!, rfl,
   mergeUntil_metrics_of_final_labels (specBackend evaluateTally) _ _ (1 / 2)
     (context2 (some [1, 1, 2, 2])) ⟨4, 1, 1, [1, 1, 2, 2]⟩ (by decide!) rfl⟩

/-! ### C10 -/

/-- C10: when the watershed returns a `counts` of size `N + 1` (a `size_t`, so below
`2^64`), `initialize` constructs the region graph with `N + 1` nodes, uses `counts` itself
as the region-size node map, and passes `numNodes - 1 = N` to `get_region_graph`; the
unsigned subtraction gives `2^64 - 1` for `numNodes = 0` and for no other value. -/
theorem initialize_node_count (B : Backend) (w : World) (a : InitArgs) (seg : Volume SegID)
    (counts : List Nat) (N : Nat) (hfresh : w.Fresh)
    (hws : B.watershed ⟨a.width, a.height, a.depth, a.affinity_data⟩ a.affThresholdLow
      a.affThresholdHigh ⟨a.width, a.height, a.depth, a.segmentation_data⟩
        = Except.ok (seg, counts))
    (hN : counts.length = N + 1) (hsz : N + 1 < 2 ^ 64) :
    ∃ w1 st c, initSession B w a = Except.ok (w1, st) ∧
      WaterzContext.get w1 st.context = some c ∧
      sizeSub counts.length 1 = N ∧
      c.regionSizes = counts ∧
      c.regionGraph = (B.get_region_graph ⟨a.width, a.height, a.depth, a.affinity_data⟩ seg N
        ⟨N + 1, []⟩ []).1 ∧
      c.edgeAffinities = (B.get_region_graph ⟨a.width, a.height, a.depth, a.affinity_data⟩
        seg N ⟨N + 1, []⟩ []).2 ∧
      Event.newRegionGraph (N + 1) ∈ w1.log ∧
      Event.newNodeMap counts ∈ w1.log ∧
      Event.callGetRegionGraph N ∈ w1.log ∧
      sizeSub 0 1 = 2 ^ 64 - 1 ∧
      ∀ n, n < 2 ^ 64 → sizeSub n 1 = 2 ^ 64 - 1 → n = 0 := by
  have hsub : sizeSub counts.length 1 = N := by rw [hN]; exact sizeSub_succ_one N hsz
  have hinit := initSession_of_watershed B w a seg counts hws
  have hctx : initContext B a seg counts w.nextId =
      { id := w.nextId,
        regionGraph := (B.get_region_graph ⟨a.width, a.height, a.depth, a.affinity_data⟩ seg N
          ⟨N + 1, []⟩ []).1,
        edgeAffinities := (B.get_region_graph ⟨a.width, a.height, a.depth, a.affinity_data⟩
          seg N ⟨N + 1, []⟩ []).2,
        regionSizes := counts,
        regionMerging := B.newRegionMerging
          (B.get_region_graph ⟨a.width, a.height, a.depth, a.affinity_data⟩ seg N
            ⟨N + 1, []⟩ []).1,
        segmentation := seg, groundtruth := none } := by
    unfold initContext
    rw [hsub, hN]
  have hlog : ∀ e ∈ initEvents a counts, e ∈ (initWorld B w a seg counts).log := by
    intro e he
    exact List.mem_append_right _ he
  have hev1 : Event.newRegionGraph (N + 1) ∈ initEvents a counts := by
    simp [initEvents, hN]
  have hev2 : Event.newNodeMap counts ∈ initEvents a counts := by
    simp [initEvents]
  have hev3 : Event.callGetRegionGraph N ∈ initEvents a counts := by
    simp [initEvents, hsub]
  have hwrap : sizeSub 0 1 = 2 ^ 64 - 1 := by decide
  cases hgt : a.ground_truth_data with
  | none =>
    rw [hgt] at hinit
    refine ⟨_, _, _, hinit, get_initWorld B w a seg counts hfresh, hsub, ?_, ?_, ?_,
      hlog _ hev1, hlog _ hev2, hlog _ hev3, hwrap, sizeSub_one_wraps⟩ <;> rw [hctx]
  | some gt =>
    rw [hgt] at hinit
    refine ⟨_, _, _, hinit, get_store _ (get_initWorld B w a seg counts hfresh), hsub,
      ?_, ?_, ?_, hlog _ hev1, hlog _ hev2, hlog _ hev3, hwrap, sizeSub_one_wraps⟩ <;>
      rw [hctx]

theorem initialize_node_count_witness :
    World.Fresh World.start ∧
    (specBackend evaluateTally).watershed ⟨4, 1, 1, (scenario2 none).affinity_data⟩ (1 / 10)
      (9 / 10) ⟨4, 1, 1, [0, 0, 0, 0]⟩ = Except.ok (⟨4, 1, 1, [1, 1, 2, 2]⟩, [0, 2, 2]) ∧
    ∃ w1 st c, initSession (specBackend evaluateTally) World.start (scenario2 none)
        = Except.ok (w1, st) ∧
      WaterzContext.get w1 st.context = some c ∧
      sizeSub [0, 2, 2].length 1 = 2 ∧
      c.regionSizes = [0, 2, 2] ∧
      c.regionGraph = ((specBackend evaluateTally).get_region_graph
        ⟨4, 1, 1, (scenario2 none).affinity_data⟩ ⟨4, 1, 1, [1, 1, 2, 2]⟩ 2 ⟨2 + 1, []⟩ []).1 ∧
      c.edgeAffinities = ((specBackend evaluateTally).get_region_graph
        ⟨4, 1, 1, (scenario2 none).affinity_data⟩ ⟨4, 1, 1, [1, 1, 2, 2]⟩ 2 ⟨2 + 1, []⟩ []).2 ∧
      Event.newRegionGraph (2 + 1) ∈ w1.log ∧
      Event.newNodeMap [0, 2, 2] ∈ w1.log ∧
      Event.callGetRegionGraph 2 ∈ w1.log ∧
      sizeSub 0 1 = 2 ^ 64 - 1 ∧
      ∀ n, n < 2 ^ 64 → sizeSub n 1 = 2 ^ 64 - 1 → n = 0 :=
  ⟨fun _ h => absurd h (List.not_mem_nil _), by decide!,
   initialize_node_count (specBackend evaluateTally) World.start (scenario2 none)
     ⟨4, 1, 1, [1, 1, 2, 2]⟩ [0, 2, 2] 2 (fun _ h => absurd h (List.not_mem_nil _))
     (by decide!) rfl (by norm_num)⟩

/-! ### C4 and C5: `initialize` validates nothing itself -/

theorem storeEntry_length (l : List (Int × WaterzContext)) (id : Int) (c : WaterzContext) :
    (storeEntry l id c).length = l.length := by
  induction l with
  | nil => rfl
  | cons p ps ih =>
    unfold storeEntry
    split
    · rfl
    · simp [ih]

theorem watershed_of_le (g : AffinityGraph) (low high : AffValue) (seg : Volume SegID)
    (h : low ≤ high) :
    watershed g low high seg = Except.ok (watershedResult g low high seg) := by
  unfold watershedResult watershed
  rw [if_neg (not_lt.mpr h)]

theorem watershed_of_gt (g : AffinityGraph) (low high : AffValue) (seg : Volume SegID)
    (h : high < low) :
    watershed g low high seg = Except.error ErrorKind.InvalidThresholds := by
  unfold watershed
  rw [if_pos h]

/-- A successful `initialize` adds one session and steps the id counter. -/
theorem initSession_adds_session (B : Backend) (w : World) (a : InitArgs)
    (seg : Volume SegID) (counts : List Nat)
    (hws : B.watershed ⟨a.width, a.height, a.depth, a.affinity_data⟩ a.affThresholdLow
      a.affThresholdHigh ⟨a.width, a.height, a.depth, a.segmentation_data⟩
        = Except.ok (seg, counts)) :
    ∃ w1 st, initSession B w a = Except.ok (w1, st) ∧ st.context = w.nextId ∧
      w1.contexts.length = w.contexts.length + 1 ∧ w1.nextId = w.nextId + 1 ∧
      w1.log = w.log ++ initEvents a counts := by
  have hinit := initSession_of_watershed B w a seg counts hws
  cases hgt : a.ground_truth_data with
  | none =>
    rw [hgt] at hinit
    exact ⟨_, _, hinit, rfl, by simp [initWorld], rfl, rfl⟩
  | some gt =>
    rw [hgt] at hinit
    exact ⟨_, _, hinit, rfl, by simp [WaterzContext.store, storeEntry_length, initWorld],
      rfl, rfl⟩

/-- The session record behind the handle that a successful `initialize` returns. -/
theorem initSession_session (B : Backend) (w : World) (a : InitArgs)
    (seg : Volume SegID) (counts : List Nat) (hfresh : w.Fresh)
    (hws : B.watershed ⟨a.width, a.height, a.depth, a.affinity_data⟩ a.affThresholdLow
      a.affThresholdHigh ⟨a.width, a.height, a.depth, a.segmentation_data⟩
        = Except.ok (seg, counts)) :
    ∃ w1 st, initSession B w a = Except.ok (w1, st) ∧
      w1.contexts.length = w.contexts.length + 1 ∧
      WaterzContext.get w1 st.context = some
        { initContext B a seg counts w.nextId with
          groundtruth := a.ground_truth_data.map (fun d => ⟨a.width, a.height, a.depth, d⟩) } := by
  have hinit := initSession_of_watershed B w a seg counts hws
  cases hgt : a.ground_truth_data with
  | none =>
    rw [hgt] at hinit
    exact ⟨_, _, hinit, by simp [initWorld], get_initWorld B w a seg counts hfresh⟩
  | some gt =>
    rw [hgt] at hinit
    exact ⟨_, _, hinit, by simp [WaterzContext.store, storeEntry_length, initWorld],
      get_store _ (get_initWorld B w a seg counts hfresh)⟩

/-- A failing watershed ends `initialize` with the watershed's error. -/
theorem initSession_of_swapped (ev : Evaluator) (w : World) (a : InitArgs)
    (h : a.affThresholdHigh < a.affThresholdLow) :
    initSession (specBackend ev) w a = Except.error ErrorKind.InvalidThresholds :=
  initSession_of_failure (specBackend ev) w a _ (watershed_of_gt _ _ _ _ h)

/-- C5 (as amended): `initialize` has no dimension check: the product of the extents is
only computed (modulo `2^64`), and no call fails with `InvalidDimensions`. When a
dimension is 0 and the thresholds are in order, the watershed of the design document
runs on the empty volume and a session is registered whose label volume is empty, whose
size map is the single background entry and whose region graph has one node. -/
theorem initialize_dimension_handling (ev : Evaluator) (w : World) (a : InitArgs) :
    initSession (specBackend ev) w a ≠ Except.error ErrorKind.InvalidDimensions ∧
    (a.width = 0 ∨ a.height = 0 ∨ a.depth = 0 →
      a.affThresholdLow ≤ a.affThresholdHigh → w.Fresh →
      ∃ w1 st c, initSession (specBackend ev) w a = Except.ok (w1, st) ∧
        w1.contexts.length = w.contexts.length + 1 ∧
        WaterzContext.get w1 st.context = some c ∧
        c.segmentation.data = [] ∧ c.regionSizes = [0] ∧ c.regionGraph = ⟨1, []⟩) := by
  constructor
  · by_cases h : a.affThresholdLow ≤ a.affThresholdHigh
    · obtain ⟨w1, st, h1, _⟩ :=
        initSession_adds_session (specBackend ev) w a _ _ (watershed_of_le _ _ _ _ h)
      rw [h1]
      exact fun hc => by cases hc
    · have h2 := initSession_of_swapped ev w a (not_le.mp h)
      rw [h2]
      exact fun hc => by cases hc
  · intro hdim hthr hfresh
    have hn : a.width * a.height * a.depth = 0 := by
      rcases hdim with h | h | h <;> simp [h]
    have hres : watershedResult ⟨a.width, a.height, a.depth, a.affinity_data⟩
        a.affThresholdLow a.affThresholdHigh
        ⟨a.width, a.height, a.depth, a.segmentation_data⟩ =
        (⟨a.width, a.height, a.depth, []⟩, [0]) := by
      unfold watershedResult watershed
      rw [if_neg (not_lt.mpr hthr)]
      simp [hn]
    have hws := watershed_of_le ⟨a.width, a.height, a.depth, a.affinity_data⟩
        a.affThresholdLow a.affThresholdHigh
        ⟨a.width, a.height, a.depth, a.segmentation_data⟩ hthr
    rw [hres] at hws
    obtain ⟨w1, st, h1, h2, h3⟩ := initSession_session (specBackend ev) w a _ _ hfresh hws
    refine ⟨w1, st, _, h1, h2, h3, rfl, rfl, ?_⟩
    simp [initContext, specBackend, get_region_graph, hn]

theorem initialize_dimension_handling_witness :
    ∃ w1 st c, initSession (specBackend evaluateTally) World.start scenarioEmpty
        = Except.ok (w1, st) ∧
      w1.contexts.length = World.start.contexts.length + 1 ∧
      WaterzContext.get w1 st.context = some c ∧
      c.segmentation.data = [] ∧ c.regionSizes = [0] ∧ c.regionGraph = ⟨1, []⟩ :=
  (initialize_dimension_handling evaluateTally World.start scenarioEmpty).2 (Or.inl rfl)
    (by decide!) (fun _ h => absurd h (List.not_mem_nil _))

/-- C5, counterexample: called with `width = 0`, `initialize` does not fail with
`InvalidDimensions`: it returns the handle of a registered session. -/
theorem initialize_zero_width_accepted :
    scenarioEmpty.width = 0 ∧
    initSession (specBackend evaluateTally) World.start scenarioEmpty
      ≠ Except.error ErrorKind.InvalidDimensions ∧
    (initSession (specBackend evaluateTally) World.start scenarioEmpty).toOption.map
      (fun r => ((WaterzContext.get r.1 r.2.context).isSome, r.1.contexts.length))
        = some (true, 1) := by
  decide!

/-! ## The merger of the design document -/

/-! ### The heap -/

theorem heapTop_mem_max : ∀ (h : List HeapEntry) (e : HeapEntry), heapTop h = some e →
    e ∈ h ∧ ∀ x ∈ h, x.1 ≤ e.1
  | [], e, he => by simp [heapTop] at he
  | a :: as, e, he => by
    unfold heapTop at he
    cases hb : heapTop as with
    | none =>
      have has : as = [] := by
        cases as with
        | nil => rfl
        | cons b bs =>
          unfold heapTop at hb
          cases hbs : heapTop bs <;> simp [hbs] at hb
          split at hb <;> simp at hb
      simp only [hb] at he
      injection he with he
      subst he; subst has
      simp
    | some b =>
      obtain ⟨hbm, hbmax⟩ := heapTop_mem_max as b hb
      simp only [hb] at he
      by_cases hgt : b.1 > a.1
      · rw [if_pos hgt] at he
        injection he with he
        subst he
        refine ⟨List.mem_cons_of_mem _ hbm, ?_⟩
        intro x hx
        rcases List.mem_cons.mp hx with h1 | h1
        · rw [h1]; exact le_of_lt hgt
        · exact hbmax x h1
      · rw [if_neg hgt] at he
        injection he with he
        subst he
        refine ⟨List.mem_cons_self _ _, ?_⟩
        intro x hx
        rcases List.mem_cons.mp hx with h1 | h1
        · rw [h1]
        · exact le_trans (hbmax x h1) (not_lt.mp hgt)

theorem heapPop_spec (h : List HeapEntry) (e : HeapEntry) (rest : List HeapEntry)
    (hp : heapPop h = some (e, rest)) :
    e ∈ h ∧ rest = h.erase e ∧ heapTop h = some e ∧ rest.length + 1 = h.length ∧
      ∀ x ∈ rest, x ∈ h ∧ x.1 ≤ e.1 := by
  unfold heapPop at hp
  cases ht : heapTop h with
  | none => simp [ht] at hp
  | some b =>
    simp only [ht, Option.map_some'] at hp
    injection hp with hp
    injection hp with h1 h2
    subst h1
    obtain ⟨hm, hmax⟩ := heapTop_mem_max h b ht
    refine ⟨hm, h2.symm, rfl, ?_, ?_⟩
    · rw [← h2, List.length_erase_of_mem hm]
      have : 0 < h.length := List.length_pos_of_mem hm
      omega
    · intro x hx
      rw [← h2] at hx
      have hxh := List.mem_of_mem_erase hx
      exact ⟨hxh, hmax x hxh⟩

theorem heapPop_none (h : List HeapEntry) (hp : heapPop h = none) : h = [] := by
  cases h with
  | nil => rfl
  | cons a as =>
    unfold heapPop heapTop at hp
    cases hb : heapTop as <;> simp [hb] at hp
    split at hp <;> simp at hp

/-! ### One contraction -/

theorem otherEnd_lt (e : Nat × Nat) (s n : Nat) (h1 : e.1 < n) (h2 : e.2 < n) :
    otherEnd e s < n := by
  unfold otherEnd
  split <;> assumption

theorem canon_lt (a b n : Nat) (ha : a < n) (hb : b < n) :
    (canon a b).1 < n ∧ (canon a b).2 < n := by
  unfold canon
  exact ⟨lt_of_le_of_lt (min_le_left a b) ha, max_lt ha hb⟩

/-- Graph and pushed entries stay in range, and grow by at most one each, per edge. -/
theorem absorb_spec (source target n : Nat) (sizes : NodeMap)
    (acc : List ((Nat × Nat) × ℚ) × List HeapEntry) (e : (Nat × Nat) × ℚ)
    (ht : target < n) (he : e.1.1 < n ∧ e.1.2 < n)
    (h1 : ∀ x ∈ acc.1, x.1.1 < n ∧ x.1.2 < n) (h2 : ∀ x ∈ acc.2, x.2.1 < n ∧ x.2.2 < n) :
    (∀ x ∈ (absorb source target sizes acc e).1, x.1.1 < n ∧ x.1.2 < n) ∧
    (∀ x ∈ (absorb source target sizes acc e).2, x.2.1 < n ∧ x.2.2 < n) ∧
    (absorb source target sizes acc e).1.length ≤ acc.1.length + 1 ∧
    (absorb source target sizes acc e).2.length ≤ acc.2.length + 1 := by
  have hw : otherEnd e.1 source < n := otherEnd_lt _ _ _ he.1 he.2
  have hc := canon_lt target (otherEnd e.1 source) n ht hw
  unfold absorb
  simp only
  split
  · exact ⟨h1, h2, Nat.le_succ _, Nat.le_succ _⟩
  · split
    · refine ⟨?_, ?_, ?_, ?_⟩
      · intro x hx
        rw [List.mem_map] at hx
        obtain ⟨y, hy, hyx⟩ := hx
        split at hyx
        · rw [← hyx]; exact h1 y hy
        · rw [← hyx]; exact h1 y hy
      · intro x hx
        rw [List.mem_append] at hx
        rcases hx with hx | hx
        · exact h2 x hx
        · rw [List.mem_singleton] at hx
          rw [hx]; exact hc
      · simp
      · simp
    · refine ⟨?_, ?_, ?_, ?_⟩
      · intro x hx
        rw [List.mem_append] at hx
        rcases hx with hx | hx
        · exact h1 x hx
        · rw [List.mem_singleton] at hx
          rw [hx]; exact hc
      · intro x hx
        rw [List.mem_append] at hx
        rcases hx with hx | hx
        · exact h2 x hx
        · rw [List.mem_singleton] at hx
          rw [hx]; exact hc
      · simp
      · simp

theorem foldl_absorb_spec (source target n : Nat) (sizes : NodeMap) (ht : target < n) :
    ∀ (moved : List ((Nat × Nat) × ℚ)) (acc : List ((Nat × Nat) × ℚ) × List HeapEntry),
      (∀ e ∈ moved, e.1.1 < n ∧ e.1.2 < n) →
      (∀ x ∈ acc.1, x.1.1 < n ∧ x.1.2 < n) → (∀ x ∈ acc.2, x.2.1 < n ∧ x.2.2 < n) →
      (∀ x ∈ (moved.foldl (absorb source target sizes) acc).1, x.1.1 < n ∧ x.1.2 < n) ∧
      (∀ x ∈ (moved.foldl (absorb source target sizes) acc).2, x.2.1 < n ∧ x.2.2 < n) ∧
      (moved.foldl (absorb source target sizes) acc).1.length ≤ acc.1.length + moved.length ∧
      (moved.foldl (absorb source target sizes) acc).2.length ≤ acc.2.length + moved.length
  | [], acc, _, h1, h2 => ⟨h1, h2, Nat.le_refl _, Nat.le_refl _⟩
  | e :: es, acc, hm, h1, h2 => by
    obtain ⟨a1, a2, a3, a4⟩ :=
      absorb_spec source target n sizes acc e ht (hm e (List.mem_cons_self _ _)) h1 h2
    obtain ⟨b1, b2, b3, b4⟩ := foldl_absorb_spec source target n sizes ht es
      (absorb source target sizes acc e) (fun x hx => hm x (List.mem_cons_of_mem _ hx)) a1 a2
    refine ⟨b1, b2, ?_, ?_⟩
    · simp only [List.foldl_cons, List.length_cons]; omega
    · simp only [List.foldl_cons, List.length_cons]; omega

theorem findRep_of_lt (rep : List Nat) (x : Nat) (h : x < rep.length) :
    findRep rep x = rep[x] := by
  unfold findRep
  exact List.getD_eq_getElem _ _ h

theorem findRep_mem (rep : List Nat) (x : Nat) (h : x < rep.length) : findRep rep x ∈ rep := by
  rw [findRep_of_lt rep x h]
  exact List.getElem_mem _

theorem findRep_relabel (rep : List Nat) (g : Nat → Nat) (x : Nat) (h : x < rep.length) :
    findRep (rep.map g) x = g (findRep rep x) := by
  rw [findRep_of_lt rep x h, findRep_of_lt (rep.map g) x (by simpa using h)]
  simp

/-- The union-find after the source has been pointed at the target. -/
theorem rep_relabel (rep : List Nat) (source target : Nat)
    (hrange : ∀ r ∈ rep, r < rep.length) (hidem : ∀ r ∈ rep, findRep rep r = r)
    (hs : source ∈ rep) (ht : target ∈ rep) (hne : source ≠ target) :
    (∀ r ∈ rep.map (fun x => if x = source then target else x), r < rep.length) ∧
    (∀ r ∈ rep.map (fun x => if x = source then target else x),
      findRep (rep.map (fun x => if x = source then target else x)) r = r) ∧
    (rep.map (fun x => if x = source then target else x)).toFinset.card
      < rep.toFinset.card := by
  have hg : ∀ r ∈ rep, (if r = source then target else r) ∈ rep ∧
      (if r = source then target else r) ≠ source := by
    intro r hr
    by_cases h : r = source
    · rw [if_pos h]; exact ⟨ht, fun hc => hne hc.symm⟩
    · rw [if_neg h]; exact ⟨hr, h⟩
  refine ⟨?_, ?_, ?_⟩
  · intro r hr
    rw [List.mem_map] at hr
    obtain ⟨y, hy, hyr⟩ := hr
    rw [← hyr]
    exact hrange _ (hg y hy).1
  · intro r hr
    rw [List.mem_map] at hr
    obtain ⟨y, hy, hyr⟩ := hr
    rw [← hyr]
    obtain ⟨hm, hns⟩ := hg y hy
    rw [findRep_relabel rep _ _ (hrange _ hm), hidem _ hm, if_neg hns]
  · have hsub : (rep.map (fun x => if x = source then target else x)).toFinset
        ⊆ rep.toFinset.erase source := by
      intro z hz
      rw [List.mem_toFinset, List.mem_map] at hz
      obtain ⟨y, hy, hyz⟩ := hz
      rw [Finset.mem_erase, List.mem_toFinset, ← hyz]
      exact ⟨(hg y hy).2, (hg y hy).1⟩
    exact lt_of_le_of_lt (Finset.card_le_card hsub)
      (Finset.card_erase_lt_of_mem (List.mem_toFinset.mpr hs))

/-- One contraction keeps the objects well formed, removes a union-find class, does not
add edges, and pushes at most one entry per edge. -/
theorem mergeInto_spec (o : MergeObjects) (source target : Nat) (hwf : WellFormed o)
    (hs : source ∈ o.regionMerging.rep) (ht : target ∈ o.regionMerging.rep)
    (hne : source ≠ target) :
    WellFormed (mergeInto o source target) ∧
    (mergeInto o source target).regionMerging.rep.length = o.regionMerging.rep.length ∧
    (mergeInto o source target).regionMerging.rep.toFinset.card
      < o.regionMerging.rep.toFinset.card ∧
    (mergeInto o source target).regionGraph.edges.length ≤ o.regionGraph.edges.length ∧
    (mergeInto o source target).regionMerging.heap.length
      ≤ o.regionMerging.heap.length + o.regionGraph.edges.length ∧
    (mergeInto o source target).regionMerging.queued = o.regionMerging.queued := by
  obtain ⟨w1, w2, w3, w4⟩ := hwf
  obtain ⟨r1, r2, r3⟩ := rep_relabel _ source target w1 w2 hs ht hne
  have hrag : ∀ e ∈ o.regionGraph.edges.zip o.edgeAffinities,
      e.1.1 < o.regionMerging.rep.length ∧ e.1.2 < o.regionMerging.rep.length := by
    intro e he
    exact w4 e.1 (List.of_mem_zip (a := e.1) (b := e.2) he).1
  obtain ⟨f1, f2, f3, f4⟩ := foldl_absorb_spec source target o.regionMerging.rep.length
    (o.regionSizes.set target (o.regionSizes.getD target 0 + o.regionSizes.getD source 0))
    (w1 _ ht)
    ((o.regionGraph.edges.zip o.edgeAffinities).filter (fun e => incident e.1 source))
    ((o.regionGraph.edges.zip o.edgeAffinities).filter (fun e => !(incident e.1 source)), [])
    (fun e he => hrag e (List.mem_of_mem_filter he))
    (fun e he => hrag e (List.mem_of_mem_filter he))
    (fun e he => absurd he (List.not_mem_nil _))
  have hlen : ((o.regionGraph.edges.zip o.edgeAffinities).filter
        (fun e => !(incident e.1 source))).length +
      ((o.regionGraph.edges.zip o.edgeAffinities).filter
        (fun e => incident e.1 source)).length ≤ o.regionGraph.edges.length := by
    have h1 := List.length_eq_length_filter_add (l := o.regionGraph.edges.zip o.edgeAffinities)
      (fun e => incident e.1 source)
    have h2 : (o.regionGraph.edges.zip o.edgeAffinities).length ≤ o.regionGraph.edges.length := by
      rw [List.length_zip]; exact min_le_left _ _
    omega
  have hmoved : ((o.regionGraph.edges.zip o.edgeAffinities).filter
        (fun e => incident e.1 source)).length ≤ o.regionGraph.edges.length := by omega
  simp only [List.length_nil, Nat.zero_add] at f3 f4
  refine ⟨⟨?_, ?_, ?_, ?_⟩, ?_, r3, ?_, ?_, rfl⟩
  · intro r hr
    simp only [mergeInto, List.length_map] at hr ⊢
    exact r1 r hr
  · intro r hr
    simp only [mergeInto] at hr ⊢
    exact r2 r hr
  · intro e he
    simp only [mergeInto, List.length_map, List.mem_append] at he ⊢
    rcases he with he | he
    · exact w3 e he
    · exact f2 e he
  · intro e he
    simp only [mergeInto, List.length_map, List.mem_map] at he ⊢
    obtain ⟨x, hx, hxe⟩ := he
    rw [← hxe]
    exact f1 x hx
  · simp [mergeInto]
  · simp only [mergeInto, List.length_map]
    omega
  · simp only [mergeInto, List.length_append]
    omega

theorem contract_spec (o : MergeObjects) (u v : Nat) (hwf : WellFormed o)
    (hu : u ∈ o.regionMerging.rep) (hv : v ∈ o.regionMerging.rep) (hne : u ≠ v) :
    WellFormed (contract o u v) ∧
    (contract o u v).regionMerging.rep.length = o.regionMerging.rep.length ∧
    (contract o u v).regionMerging.rep.toFinset.card < o.regionMerging.rep.toFinset.card ∧
    (contract o u v).regionGraph.edges.length ≤ o.regionGraph.edges.length ∧
    (contract o u v).regionMerging.heap.length
      ≤ o.regionMerging.heap.length + o.regionGraph.edges.length ∧
    (contract o u v).regionMerging.queued = o.regionMerging.queued := by
  unfold contract
  split
  · exact mergeInto_spec o u v hwf hu hv hne
  · exact mergeInto_spec o v u hwf hv hu (fun h => hne h.symm)

/-! ### The merge loop -/

theorem wellFormed_setHeap (o : MergeObjects) (rest : List HeapEntry) (hwf : WellFormed o)
    (hsub : ∀ x ∈ rest, x ∈ o.regionMerging.heap) : WellFormed (o.setHeap rest) := by
  obtain ⟨w1, w2, w3, w4⟩ := hwf
  exact ⟨w1, w2, fun e he => w3 e (hsub e he), w4⟩

/-- With enough fuel the loop ends in a well-formed state whose heap holds only entries
below the threshold. -/
theorem mergeLoop_spec (t : ℚ) : ∀ (fuel : Nat) (o : MergeObjects),
    WellFormed o → potential o < fuel →
    WellFormed (mergeLoop fuel t o) ∧
    (∀ e ∈ (mergeLoop fuel t o).regionMerging.heap, e.1 < t) ∧
    (mergeLoop fuel t o).regionMerging.queued = o.regionMerging.queued
  | 0, _, _, hp => absurd hp (Nat.not_lt_zero _)
  | fuel + 1, o, hwf, hp => by
    unfold mergeLoop
    cases hpop : heapPop o.regionMerging.heap with
    | none =>
      have hnil := heapPop_none _ hpop
      refine ⟨hwf, ?_, rfl⟩
      intro e he
      rw [hnil] at he
      exact absurd he (List.not_mem_nil _)
    | some p =>
      obtain ⟨e, rest⟩ := p
      obtain ⟨hmem, _, _, hlen, hrest⟩ := heapPop_spec _ _ _ hpop
      have hwf1 : WellFormed (o.setHeap rest) :=
        wellFormed_setHeap o rest hwf (fun x hx => (hrest x hx).1)
      simp only
      by_cases hlt : e.1 < t
      · rw [if_pos hlt]
        refine ⟨hwf1, ?_, rfl⟩
        intro x hx
        exact lt_of_le_of_lt (hrest x hx).2 hlt
      · rw [if_neg hlt]
        by_cases hsame : findRep o.regionMerging.rep e.2.1 = findRep o.regionMerging.rep e.2.2
        · rw [if_pos hsame]
          have hp1 : potential (o.setHeap rest) < fuel := by
            unfold potential at hp ⊢
            simp only [MergeObjects.setHeap]
            omega
          exact mergeLoop_spec t fuel (o.setHeap rest) hwf1 hp1
        · rw [if_neg hsame]
          have hin := hwf.2.2.1 e hmem
          obtain ⟨c1, _, c3, c4, c5, c6⟩ := contract_spec (o.setHeap rest)
            (findRep o.regionMerging.rep e.2.1) (findRep o.regionMerging.rep e.2.2) hwf1
            (findRep_mem _ _ hin.1) (findRep_mem _ _ hin.2) hsame
          generalize contract (o.setHeap rest) (findRep o.regionMerging.rep e.2.1)
            (findRep o.regionMerging.rep e.2.2) = X at c1 c3 c4 c5 c6 ⊢
          have c3' : X.regionMerging.rep.toFinset.card < o.regionMerging.rep.toFinset.card := c3
          have c4' : X.regionGraph.edges.length ≤ o.regionGraph.edges.length := c4
          have c5' : X.regionMerging.heap.length ≤ rest.length + o.regionGraph.edges.length := c5
          have c6' : X.regionMerging.queued = o.regionMerging.queued := c6
          have hp1 : potential X < fuel := by
            unfold potential at hp ⊢
            have m1 := Nat.mul_le_mul_left X.regionMerging.rep.toFinset.card c4'
            have m2 := Nat.mul_le_mul_right o.regionGraph.edges.length (Nat.succ_le_of_lt c3')
            rw [Nat.succ_mul] at m2
            omega
          obtain ⟨i1, i2, i3⟩ := mergeLoop_spec t fuel X c1 hp1
          exact ⟨i1, i2, i3.trans c6'⟩

theorem enqueueEdges_spec (o : MergeObjects) (hwf : WellFormed o) :
    WellFormed (enqueueEdges o) ∧ (enqueueEdges o).regionMerging.queued = true ∧
    potential (enqueueEdges o) < popBound (enqueueEdges o) := by
  have hpot : ∀ x : MergeObjects, potential x < popBound x := by
    intro x
    unfold potential popBound
    have := Nat.mul_le_mul_right x.regionGraph.edges.length
      (List.toFinset_card_le x.regionMerging.rep)
    omega
  refine ⟨?_, ?_, hpot _⟩
  · unfold enqueueEdges
    split
    · exact hwf
    · obtain ⟨w1, w2, w3, w4⟩ := hwf
      refine ⟨w1, w2, ?_, w4⟩
      intro e he
      simp only [List.mem_append, List.mem_map] at he
      rcases he with he | ⟨x, hx, hxe⟩
      · exact w3 e he
      · rw [← hxe]
        exact w4 x.1 (List.of_mem_zip (a := x.1) (b := x.2) hx).1
  · unfold enqueueEdges
    split
    · assumption
    · rfl

/-- A merge call of the design's merger ends well formed, queued, with only entries
below the threshold left in the heap. -/
theorem mergerMergeUntil_spec (o : MergeObjects) (t : ℚ) (hwf : WellFormed o) :
    WellFormed (mergerMergeUntil o t) ∧
    (∀ e ∈ (mergerMergeUntil o t).regionMerging.heap, e.1 < t) ∧
    (mergerMergeUntil o t).regionMerging.queued = true := by
  obtain ⟨e1, e2, e3⟩ := enqueueEdges_spec o hwf
  obtain ⟨l1, l2, l3⟩ := mergeLoop_spec t _ _ e1 e3
  exact ⟨l1, l2, l3.trans e2⟩

/-! ### Calls on a well-formed session -/

/-- One call on a live session, in terms of the two blocks of `mergeUntil`. -/
theorem mergeUntil_step (B : Backend) (w : World) (state : WaterzState) (t : ℚ)
    (c : WaterzContext) (hlive : WaterzContext.get w state.context = some c) :
    ∃ w1 s1, mergeUntil B w state t = some (w1, s1) ∧ s1.context = state.context ∧
      WaterzContext.get w1 state.context = some (mergeBlock B c t).1 ∧
      s1 = (evaluateBlock B (mergeBlock B c t).1 state).1 := by
  refine ⟨_, _, mergeUntil_live B w state t c hlive, evaluateBlock_context _ _ _, ?_, rfl⟩
  rw [get_emit]
  exact get_store _ hlive


/-- The merge block keeps a well-formed session well formed. -/
theorem mergeBlock_wellFormed (ev : Evaluator) (c : WaterzContext) (t : ℚ)
    (hwf : WellFormed c.objects) :
    WellFormed (mergeBlock (specBackend ev) c t).1.objects := by
  unfold mergeBlock
  by_cases ht : t > 0
  · rw [if_pos ht]
    exact (mergerMergeUntil_spec c.objects t hwf).1
  · rw [if_neg ht]
    exact hwf

/-! ### Sessions made by `initialize` are well formed -/

theorem foldl_invariant {α β : Type} (P : β → Prop) (f : β → α → β)
    (hf : ∀ b a, P b → P (f b a)) : ∀ (l : List α) (b : β), P b → P (l.foldl f b)
  | [], _, hb => hb
  | a :: as, b, hb => foldl_invariant P f hf as (f b a) (hf b a hb)

theorem components_lt (n : Nat) (links : List (Nat × Nat)) :
    ∀ c ∈ components n links, c < n := by
  unfold components
  apply foldl_invariant (fun comp : List Nat => ∀ c ∈ comp, c < n)
  · intro comp e hcomp c hc
    rw [List.mem_map] at hc
    obtain ⟨y, hy, hyc⟩ := hc
    by_cases h : y = max (comp.getD e.1 e.1) (comp.getD e.2 e.2)
    · rw [if_pos h] at hyc
      rw [← hyc]
      have hy' := hcomp y hy
      rw [h] at hy'
      exact lt_of_le_of_lt (min_le_max) hy'
    · rw [if_neg h] at hyc
      rw [← hyc]
      exact hcomp y hy
  · intro c hc
    exact List.mem_range.mp hc

theorem getD_lt_of_forall (l : List Nat) (i n : Nat) (hl : ∀ c ∈ l, c < n) (hi : i < n) :
    l.getD i i < n := by
  by_cases h : i < l.length
  · rw [List.getD_eq_getElem _ _ h]
    exact hl _ (List.getElem_mem _)
  · rw [List.getD_eq_default _ _ (not_lt.mp h)]
    exact hi

theorem getD_zero_lt_of_forall (l : List Nat) (i M : Nat) (hl : ∀ c ∈ l, c < M) (hM : 0 < M) :
    l.getD i 0 < M := by
  by_cases h : i < l.length
  · rw [List.getD_eq_getElem _ _ h]
    exact hl _ (List.getElem_mem _)
  · rw [List.getD_eq_default _ _ (not_lt.mp h)]
    exact hM

theorem filter_range_length_le (p : Nat → Bool) (k n : Nat) (h : k ≤ n) :
    ((List.range k).filter p).length ≤ ((List.range n).filter p).length :=
  ((List.range_sublist.mpr h).filter p).length_le

/-- The labels that the watershed writes are below the size of `counts`. -/
theorem watershed_labels_lt (g : AffinityGraph) (low high : AffValue)
    (seg seg1 : Volume SegID) (counts : List Nat)
    (h : watershed g low high seg = Except.ok (seg1, counts)) :
    0 < counts.length ∧ ∀ l ∈ seg1.data, l < counts.length := by
  unfold watershed at h
  by_cases hlt : low > high
  · rw [if_pos hlt] at h
    cases h
  · rw [if_neg hlt] at h
    injection h with h
    injection h with h1 h2
    subst h1; subst h2
    simp only [List.length_map, List.length_range]
    refine ⟨Nat.succ_pos _, ?_⟩
    intro l hl
    rw [List.mem_map] at hl
    obtain ⟨i, hi, hil⟩ := hl
    rw [← hil]
    split
    · exact Nat.succ_pos _
    · apply Nat.lt_succ_of_le
      apply filter_range_length_le
      exact Nat.succ_le_of_lt
        (getD_lt_of_forall _ _ _ (components_lt _ _) (List.mem_range.mp hi))

theorem updateEdge_lt (r : RegionGraph × EdgeMap) (u v : Nat) (x : AffValue) (M : Nat)
    (hu : u < M) (hv : v < M) (hr : ∀ e ∈ r.1.edges, e.1 < M ∧ e.2 < M) :
    ∀ e ∈ (updateEdge r u v x).1.edges, e.1 < M ∧ e.2 < M := by
  unfold updateEdge
  split
  · exact hr
  · intro e he
    simp only [List.mem_append, List.mem_singleton] at he
    rcases he with he | he
    · exact hr e he
    · rw [he]; exact ⟨hu, hv⟩

/-- The edges that the builder emits join labels of the label volume. -/
theorem get_region_graph_lt (g : AffinityGraph) (seg : Volume SegID) (maxId M : Nat)
    (graph : RegionGraph) (stats : EdgeMap) (hM : 0 < M) (hseg : ∀ l ∈ seg.data, l < M)
    (hgraph : ∀ e ∈ graph.edges, e.1 < M ∧ e.2 < M) :
    ∀ e ∈ (get_region_graph g seg maxId graph stats).1.edges, e.1 < M ∧ e.2 < M := by
  unfold get_region_graph
  apply foldl_invariant (fun r : RegionGraph × EdgeMap => ∀ e ∈ r.1.edges, e.1 < M ∧ e.2 < M)
  · intro r i hr
    apply foldl_invariant
      (fun r : RegionGraph × EdgeMap => ∀ e ∈ r.1.edges, e.1 < M ∧ e.2 < M)
    · intro r1 k hr1
      split
      · exact hr1
      · simp only
        split
        · exact hr1
        · apply updateEdge_lt
          · exact lt_of_le_of_lt (min_le_left _ _) (getD_zero_lt_of_forall _ _ _ hseg hM)
          · exact max_lt (getD_zero_lt_of_forall _ _ _ hseg hM)
              (getD_zero_lt_of_forall _ _ _ hseg hM)
          · exact hr1
    · exact hr
  · exact hgraph

theorem newRegionMerging_wellFormed (g : RegionGraph) (stats : EdgeMap) (sizes : NodeMap)
    (h : ∀ e ∈ g.edges, e.1 < g.numNodes ∧ e.2 < g.numNodes) :
    WellFormed ⟨g, stats, sizes, newRegionMerging g⟩ := by
  unfold WellFormed newRegionMerging
  simp only [List.length_range, List.mem_range]
  refine ⟨fun r hr => hr, ?_, ?_, h⟩
  · intro r hr
    rw [findRep_of_lt _ _ (by simpa using hr)]
    simp
  · intro e he
    exact absurd he (List.not_mem_nil _)

theorem updateEdge_numNodes (r : RegionGraph × EdgeMap) (u v : Nat) (x : AffValue) :
    (updateEdge r u v x).1.numNodes = r.1.numNodes := by
  unfold updateEdge
  split <;> rfl

theorem get_region_graph_numNodes (g : AffinityGraph) (seg : Volume SegID) (maxId : Nat)
    (graph : RegionGraph) (stats : EdgeMap) :
    (get_region_graph g seg maxId graph stats).1.numNodes = graph.numNodes := by
  unfold get_region_graph
  apply foldl_invariant (fun r : RegionGraph × EdgeMap => r.1.numNodes = graph.numNodes)
  · intro r i hr
    apply foldl_invariant (fun r : RegionGraph × EdgeMap => r.1.numNodes = graph.numNodes)
    · intro r1 k hr1
      split
      · exact hr1
      · simp only
        split
        · exact hr1
        · rw [updateEdge_numNodes]; exact hr1
    · exact hr
  · rfl

/-- The session that `initialize` registers with the back end of the design document is
well formed. -/
theorem initSession_wellFormed (ev : Evaluator) (w w1 : World) (a : InitArgs) (st : WaterzState)
    (hfresh : w.Fresh) (hinit : initSession (specBackend ev) w a = Except.ok (w1, st)) :
    ∃ c, WaterzContext.get w1 st.context = some c ∧ WellFormed c.objects := by
  cases hws : (specBackend ev).watershed ⟨a.width, a.height, a.depth, a.affinity_data⟩
      a.affThresholdLow a.affThresholdHigh
      ⟨a.width, a.height, a.depth, a.segmentation_data⟩ with
  | error e =>
    rw [initSession_of_failure _ w a e hws] at hinit
    cases hinit
  | ok r =>
    obtain ⟨seg, counts⟩ := r
    obtain ⟨w1', st', h1, _, h3⟩ := initSession_session (specBackend ev) w a seg counts hfresh hws
    rw [hinit] at h1
    injection h1 with h1
    injection h1 with hw hs
    subst hw; subst hs
    refine ⟨_, h3, ?_⟩
    obtain ⟨hpos, hlab⟩ := watershed_labels_lt _ _ _ _ _ _ hws
    have hnum := get_region_graph_numNodes ⟨a.width, a.height, a.depth, a.affinity_data⟩ seg
      (sizeSub counts.length 1) ⟨counts.length, []⟩ []
    have hedges := get_region_graph_lt ⟨a.width, a.height, a.depth, a.affinity_data⟩ seg
      (sizeSub counts.length 1) counts.length ⟨counts.length, []⟩ [] hpos hlab
      (fun e he => absurd he (List.not_mem_nil _))
    exact newRegionMerging_wellFormed
      (get_region_graph ⟨a.width, a.height, a.depth, a.affinity_data⟩ seg
        (sizeSub counts.length 1) ⟨counts.length, []⟩ []).1
      (get_region_graph ⟨a.width, a.height, a.depth, a.affinity_data⟩ seg
        (sizeSub counts.length 1) ⟨counts.length, []⟩ []).2 counts
      (fun e he => by rw [hnum]; exact hedges e he)

/-- A sequence of calls keeps a live, well-formed session live and well formed. -/
theorem runCalls_wellFormed (ev : Evaluator) (ts : List ℚ) :
    ∀ (w : World) (state : WaterzState) (c : WaterzContext),
      WaterzContext.get w state.context = some c → WellFormed c.objects →
      ∃ w1 s1 c1, runCalls (specBackend ev) w state ts = some (w1, s1) ∧
        WaterzContext.get w1 s1.context = some c1 ∧ WellFormed c1.objects := by
  induction ts with
  | nil => intro w state c h hwf; exact ⟨w, state, c, rfl, h, hwf⟩
  | cons t ts ih =>
    intro w state c h hwf
    obtain ⟨w1, s1, hm, hc, hg, _⟩ := mergeUntil_step (specBackend ev) w state t c h
    rw [← hc] at hg
    obtain ⟨w2, s2, c2, h1, h2, h3⟩ := ih w1 s1 _ hg (mergeBlock_wellFormed ev c t hwf)
    refine ⟨w2, s2, c2, ?_, h2, h3⟩
    simp only [runCalls, hm]
    exact h1

/-- On a session made by `initialize` and carried through any sequence of `mergeUntil`
calls, a merge call of the design's merger ends by its stop rule, not by its bound on
the pops: the objects are well formed and every entry left on the heap is below the
threshold. -/
theorem mergerMergeUntil_stops_on_sessions (ev : Evaluator) (w w1 w2 : World) (a : InitArgs)
    (st st2 : WaterzState) (ts : List ℚ) (t : ℚ)
    (hfresh : w.Fresh) (hinit : initSession (specBackend ev) w a = Except.ok (w1, st))
    (hcalls : runCalls (specBackend ev) w1 st ts = some (w2, st2)) :
    ∃ c, WaterzContext.get w2 st2.context = some c ∧ WellFormed c.objects ∧
      WellFormed (mergerMergeUntil c.objects t) ∧
      ∀ e ∈ (mergerMergeUntil c.objects t).regionMerging.heap, e.1 < t := by
  obtain ⟨c0, hc0, hwf0⟩ := initSession_wellFormed ev w w1 a st hfresh hinit
  obtain ⟨w2', s2', c, hr, hget, hwf⟩ := runCalls_wellFormed ev ts w1 st c0 hc0 hwf0
  rw [hcalls] at hr
  injection hr with hr
  injection hr with hw hs
  subst hw; subst hs
  obtain ⟨m1, m2, _⟩ := mergerMergeUntil_spec c.objects t hwf
  exact ⟨c, hget, hwf, m1, m2⟩

/-! ### C3 -/

/-- C3 (as amended): scenario 2. `initialize` labels the four voxels `[1,1,2,2]` and
builds the single edge `{1,2}` with statistic 0. After `mergeUntil(0.5)` the labels are
still `[1,1,2,2]` (two regions), and a subsequent `mergeUntil(0.0)` changes nothing in the
session: the labels stay `[1,1,2,2]`. -/
theorem scenario2_thresholds :
    (WaterzContext.get (session2 none).1 0).map
      (fun c => (c.segmentation.data, c.regionGraph.edges, c.edgeAffinities))
        = some ([1, 1, 2, 2], [(1, 2)], [0]) ∧
    labelsAfter (session2 none).1 [1 / 2] = some [1, 1, 2, 2] ∧
    labelsAfter (session2 none).1 [1 / 2, 0] = some [1, 1, 2, 2] ∧
    (session2After none [1 / 2, 0]).1.contexts = (session2After none [1 / 2]).1.contexts := by
  decide!

/-- C3, counterexample: in scenario 2, after `mergeUntil(0.5)` followed by
`mergeUntil(0.0)`, the first and the third voxel carry different labels (1 and 2): the
two regions were not merged. -/
theorem scenario2_zero_does_not_merge :
    (WaterzContext.get (session2After none [1 / 2, 0]).1 0).map
      (fun c => (c.segmentation.data.getD 0 0, c.segmentation.data.getD 2 0)) = some (1, 2) ∧
    ¬ ((WaterzContext.get (session2After none [1 / 2, 0]).1 0).map
      (fun c => decide (∀ l ∈ c.segmentation.data, l = c.segmentation.data.getD 0 0))
        = some true) := by
  decide!

end Waterz
